import Mathlib

set_option autoImplicit false
set_option linter.unusedVariables false

/-!
Verification of the ckBTC minter state machine
(`rs/bitcoin/ckbtc/minter/src/state.rs`).

The Rust state object is embedded shallowly: `BTreeMap` becomes an
association list with unique keys maintained by `minsert`/`merase`,
`BTreeSet` becomes a duplicate-free list, `VecDeque` becomes a list
(`pop_front` is `tail`, `push_back` is append), and `u64` arithmetic is
carried out on `Nat` (with explicit saturation where the source uses
`saturating_add`).  Functions that can `panic!`/`trap`/`assert!` in Rust
return `Option`, with `none` standing for the panic.
-/

namespace CkBtc

/-- Principals are abstract identities; only equality matters here. -/
abbrev Principal := Nat

/-- Bitcoin transaction identifiers; only equality matters here. -/
abbrev Txid := Nat

/-- Bitcoin addresses; only equality matters here. -/
abbrev BitcoinAddress := Nat

/-- Nanoseconds since the Unix epoch, a `u64` in the source. -/
abbrev Timestamp := Nat

/-- The largest value a `u64` timestamp can hold. -/
def U64_MAX : Nat := 2 ^ 64 - 1

/-- `Timestamp::saturating_add` on `u64` nanoseconds. -/
def Timestamp.saturating_add (t : Timestamp) (d : Nat) : Timestamp :=
  min (t + d) U64_MAX

/-- `Timestamp::checked_duration_since`: `none` when `t` is in the future of `now`. -/
def Timestamp.checked_duration_since (now t : Timestamp) : Option Nat :=
  if t ≤ now then some (now - t) else none

/-- 24 hours in nanoseconds (`Duration::from_secs(24 * 60 * 60)` compared in nanos). -/
def DAY : Nat := 24 * 60 * 60 * 1000000000

/-- An ICRC-1 ledger account. -/
structure Account where
  owner : Principal
  subaccount : Option Nat
deriving DecidableEq

/-- A Bitcoin outpoint. -/
structure OutPoint where
  txid : Txid
  vout : Nat
deriving DecidableEq

/-- An unspent transaction output. -/
structure Utxo where
  outpoint : OutPoint
  value : Nat
  height : Nat
deriving DecidableEq

/-! ### Association-list maps (the embedding of `BTreeMap`) -/

/-- `BTreeMap::get`. -/
def mlookup {K V : Type} [DecidableEq K] : List (K × V) → K → Option V
  | [], _ => none
  | (a, b) :: t, k => if a = k then some b else mlookup t k

/-- `BTreeMap::insert`: replace the value at an existing key, otherwise add the key. -/
def minsert {K V : Type} [DecidableEq K] : List (K × V) → K → V → List (K × V)
  | [], k, v => [(k, v)]
  | (a, b) :: t, k, v => if a = k then (k, v) :: t else (a, b) :: minsert t k v

/-- `BTreeMap::remove`. -/
def merase {K V : Type} [DecidableEq K] (m : List (K × V)) (k : K) : List (K × V) :=
  m.filter (fun p => if p.1 = k then false else true)

/-- Erasing a present key strictly shrinks the map (termination measure of the
replacement-chain walks). -/
theorem merase_length_lt {K V : Type} [DecidableEq K] {k : K} {v : V} :
    ∀ {m : List (K × V)}, mlookup m k = some v → (merase m k).length < m.length := by
  intro m
  induction m with
  | nil => intro h; simp [mlookup] at h
  | cons hd tl ih =>
    obtain ⟨a, b⟩ := hd
    intro h
    by_cases hk : a = k
    · have he : merase ((a, b) :: tl) k = merase tl k := by
        simp [merase, List.filter, hk]
      rw [he]
      exact Nat.lt_succ_of_le (List.length_filter_le _ tl)
    · have h2 : mlookup tl k = some v := by
        simpa [mlookup, hk] using h
      have he : merase ((a, b) :: tl) k = (a, b) :: merase tl k := by
        simp [merase, List.filter, hk]
      rw [he]
      exact Nat.succ_lt_succ (ih h2)

/-- `BTreeSet::insert` on a duplicate-free list. -/
def sinsert {A : Type} [DecidableEq A] (s : List A) (x : A) : List A :=
  if x ∈ s then s else s ++ [x]

/-- `BTreeSet::remove` on a duplicate-free list. -/
def sremove {A : Type} [DecidableEq A] (s : List A) (x : A) : List A :=
  s.filter (fun y => if y = x then false else true)

/-! ### Domain types of the minter -/

/-- A pending retrieve_btc request. -/
structure RetrieveBtcRequest where
  amount : Nat
  address : BitcoinAddress
  block_index : Nat
  received_at : Nat
  kyt_provider : Option Principal
  reimbursement_account : Option Account
deriving DecidableEq

/-- A transaction output storing the change of the minter. -/
structure ChangeOutput where
  vout : Nat
  value : Nat
deriving DecidableEq

/-- A transaction sent to the Bitcoin network. -/
structure SubmittedBtcTransaction where
  requests : List RetrieveBtcRequest
  txid : Txid
  used_utxos : List Utxo
  submitted_at : Nat
  change_output : Option ChangeOutput
  fee_per_vbyte : Option Nat
deriving DecidableEq

/-- The outcome of a retrieve_btc request. -/
inductive FinalizedStatus where
  | AmountTooLow
  | Confirmed (txid : Txid)
deriving DecidableEq

/-- Pairs a retrieve_btc request with its outcome. -/
structure FinalizedBtcRetrieval where
  request : RetrieveBtcRequest
  state : FinalizedStatus
deriving DecidableEq

/-- The status of a transaction not yet sent to the Bitcoin network. -/
inductive InFlightStatus where
  | Signing
  | Sending (txid : Txid)
deriving DecidableEq

/-- The status of a retrieve_btc request. -/
inductive RetrieveBtcStatus where
  | Unknown
  | Pending
  | Signing
  | Sending (txid : Txid)
  | Submitted (txid : Txid)
  | AmountTooLow
  | Confirmed (txid : Txid)
deriving DecidableEq

/-- Controls which operations the minter can perform. -/
inductive Mode where
  | ReadOnly
  | RestrictedTo (allow_list : List Principal)
  | DepositsRestrictedTo (allow_list : List Principal)
  | GeneralAvailability
deriving DecidableEq

/-- Why a deposit is reimbursed. -/
inductive ReimbursementReason where
  | TaintedDestination (kyt_provider : Principal) (kyt_fee : Nat)
  | CallFailed
deriving DecidableEq

/-- A reimbursement the minter still has to execute. -/
structure ReimburseDepositTask where
  account : Account
  amount : Nat
  reason : ReimbursementReason
deriving DecidableEq

/-- A reimbursement the minter has executed. -/
structure ReimbursedDeposit where
  account : Account
  amount : Nat
  reason : ReimbursementReason
  mint_block_index : Nat
deriving DecidableEq

/-- The v2 status of a retrieve_btc request, with reimbursement states. -/
inductive RetrieveBtcStatusV2 where
  | Unknown
  | Pending
  | Signing
  | Sending (txid : Txid)
  | Submitted (txid : Txid)
  | AmountTooLow
  | Confirmed (txid : Txid)
  | Reimbursed (deposit : ReimbursedDeposit)
  | WillReimburse (task : ReimburseDepositTask)
deriving DecidableEq

/-- `impl From<RetrieveBtcStatus> for RetrieveBtcStatusV2`. -/
def RetrieveBtcStatus.toV2 : RetrieveBtcStatus → RetrieveBtcStatusV2
  | RetrieveBtcStatus.Unknown => RetrieveBtcStatusV2.Unknown
  | RetrieveBtcStatus.Pending => RetrieveBtcStatusV2.Pending
  | RetrieveBtcStatus.Signing => RetrieveBtcStatusV2.Signing
  | RetrieveBtcStatus.Sending txid => RetrieveBtcStatusV2.Sending txid
  | RetrieveBtcStatus.Submitted txid => RetrieveBtcStatusV2.Submitted txid
  | RetrieveBtcStatus.AmountTooLow => RetrieveBtcStatusV2.AmountTooLow
  | RetrieveBtcStatus.Confirmed txid => RetrieveBtcStatusV2.Confirmed txid

/-- The outcome of a UTXO check. -/
inductive UtxoCheckStatus where
  | Clean
  | Tainted
  | CleanButMintUnknown
deriving DecidableEq

/-- Relevant data for a checked UTXO. -/
structure CheckedUtxo where
  status : UtxoCheckStatus
  uuid : Option Nat
  kyt_provider : Option Principal
deriving DecidableEq

/-- Indicates that fee distribution overdrafted. -/
structure Overdraft where
  amount : Nat
deriving DecidableEq

/-- Why a UTXO is temporarily excluded from processing. -/
inductive SuspendedReason where
  | ValueTooSmall
  | Quarantined
deriving DecidableEq

/-- UTXOs that cannot yet be processed. -/
structure SuspendedUtxos where
  utxos_without_account : List (Utxo × SuspendedReason) := []
  utxos : List (Account × List (Utxo × SuspendedReason)) := []
  last_time_checked_cache : List (Utxo × Timestamp) := []
deriving DecidableEq

/-- A suspended UTXO as reported back to update_balance callers. -/
structure SuspendedUtxo where
  utxo : Utxo
  reason : SuspendedReason
  earliest_retry : Nat
deriving DecidableEq

/-- Partition of the processable UTXOs of an account. -/
structure ProcessableUtxos where
  new_utxos : List Utxo := []
  previously_ignored_utxos : List Utxo := []
  previously_quarantined_utxos : List Utxo := []
deriving DecidableEq

/-- The maximum number of finalized BTC retrieval requests kept in the history. -/
def MAX_FINALIZED_REQUESTS : Nat := 100

/-- The state of the ckBTC minter.  Configuration fields that no modelled
operation reads (network, key names, fee percentiles, caches, timer latches)
are omitted. -/
structure CkBtcMinterState where
  update_balance_accounts : List Account := []
  pending_retrieve_btc_requests : List RetrieveBtcRequest := []
  retrieve_btc_account_to_block_indices : List (Account × List Nat) := []
  requests_in_flight : List (Nat × InFlightStatus) := []
  submitted_transactions : List SubmittedBtcTransaction := []
  stuck_transactions : List SubmittedBtcTransaction := []
  replacement_txid : List (Txid × Txid) := []
  rev_replacement_txid : List (Txid × Txid) := []
  finalized_requests : List FinalizedBtcRetrieval := []
  finalized_requests_count : Nat := 0
  tokens_minted : Nat := 0
  tokens_burned : Nat := 0
  available_utxos : List Utxo := []
  outpoint_account : List (OutPoint × Account) := []
  utxos_state_addresses : List (Account × List Utxo) := []
  finalized_utxos : List (Account × List Utxo) := []
  mode : Mode := Mode.GeneralAvailability
  check_fee : Nat := 100
  owed_kyt_amount : List (Principal × Nat) := []
  checked_utxos : List (Utxo × CheckedUtxo) := []
  suspended_utxos : SuspendedUtxos := {}
  pending_reimbursements : List (Nat × ReimburseDepositTask) := []
  reimbursed_transactions : List (Nat × ReimbursedDeposit) := []
deriving DecidableEq

/-! ### Mode / access control -/

/-- `Mode::is_deposit_available_for`. -/
def Mode.is_deposit_available_for : Mode → Principal → Except String Unit
  | Mode.GeneralAvailability, _ => Except.ok ()
  | Mode.ReadOnly, _ => Except.error "the minter is in read-only mode"
  | Mode.RestrictedTo allow_list, p =>
      if p ∈ allow_list then Except.ok ()
      else Except.error "access to the minter is temporarily restricted"
  | Mode.DepositsRestrictedTo allow_list, p =>
      if p ∈ allow_list then Except.ok ()
      else Except.error "BTC deposits are temporarily restricted"

/-- `Mode::is_withdrawal_available_for`. -/
def Mode.is_withdrawal_available_for : Mode → Principal → Except String Unit
  | Mode.GeneralAvailability, _ => Except.ok ()
  | Mode.DepositsRestrictedTo _, _ => Except.ok ()
  | Mode.ReadOnly, _ => Except.error "the minter is in read-only mode"
  | Mode.RestrictedTo allow_list, p =>
      if p ∈ allow_list then Except.ok ()
      else Except.error "BTC withdrawals are temporarily restricted"

/-! ### Fee accounting -/

/-- `CkBtcMinterState::distribute_kyt_fee`.  Returns the result together with
the updated state. -/
def CkBtcMinterState.distribute_kyt_fee (s : CkBtcMinterState) (provider : Principal)
    (amount : Nat) : Except Overdraft Unit × CkBtcMinterState :=
  if amount = 0 then (Except.ok (), s)
  else
    match mlookup s.owed_kyt_amount provider with
    | some balance =>
        if balance < amount then
          (Except.error { amount := amount - balance },
           { s with owed_kyt_amount := merase s.owed_kyt_amount provider })
        else if balance - amount = 0 then
          (Except.ok (), { s with owed_kyt_amount := merase s.owed_kyt_amount provider })
        else
          (Except.ok (),
           { s with owed_kyt_amount := minsert s.owed_kyt_amount provider (balance - amount) })
    | none => (Except.error { amount := amount }, s)

/-! ### Status queries -/

/-- `CkBtcMinterState::has_pending_request`. -/
def CkBtcMinterState.has_pending_request (s : CkBtcMinterState) (block_index : Nat) : Bool :=
  s.pending_retrieve_btc_requests.any (fun req => req.block_index == block_index)

/-- `CkBtcMinterState::retrieve_btc_status`. -/
def CkBtcMinterState.retrieve_btc_status (s : CkBtcMinterState) (block_index : Nat) :
    RetrieveBtcStatus :=
  if s.pending_retrieve_btc_requests.any (fun req => req.block_index == block_index) then
    RetrieveBtcStatus.Pending
  else
    match mlookup s.requests_in_flight block_index with
    | some InFlightStatus.Signing => RetrieveBtcStatus.Signing
    | some (InFlightStatus.Sending txid) => RetrieveBtcStatus.Sending txid
    | none =>
      match s.submitted_transactions.findSome? (fun tx =>
          if tx.requests.any (fun r => r.block_index == block_index) then some tx.txid
          else none) with
      | some txid => RetrieveBtcStatus.Submitted txid
      | none =>
        match (s.finalized_requests.find? (fun f =>
            f.request.block_index == block_index)).map (fun f => f.state) with
        | some FinalizedStatus.AmountTooLow => RetrieveBtcStatus.AmountTooLow
        | some (FinalizedStatus.Confirmed txid) => RetrieveBtcStatus.Confirmed txid
        | none => RetrieveBtcStatus.Unknown

/-- `CkBtcMinterState::retrieve_btc_status_v2`. -/
def CkBtcMinterState.retrieve_btc_status_v2 (s : CkBtcMinterState) (block_index : Nat) :
    RetrieveBtcStatusV2 :=
  match mlookup s.pending_reimbursements block_index with
  | some reimbursement => RetrieveBtcStatusV2.WillReimburse reimbursement
  | none =>
    match mlookup s.reimbursed_transactions block_index with
    | some reimbursement => RetrieveBtcStatusV2.Reimbursed reimbursement
    | none => (s.retrieve_btc_status block_index).toV2

/-! ### The withdrawal pipeline -/

/-- The loop of `CkBtcMinterState::build_batch`, folding over the drained
pending queue with the batch, the batch amount and the requests put back. -/
def build_batch_go (available_utxos_value max_size : Nat) :
    List RetrieveBtcRequest → List RetrieveBtcRequest → Nat → List RetrieveBtcRequest →
    List RetrieveBtcRequest × List RetrieveBtcRequest
  | [], batch, _, pending => (batch, pending)
  | req :: rest, batch, tx_amount, pending =>
    if available_utxos_value < req.amount + tx_amount ∨ max_size ≤ batch.length then
      build_batch_go available_utxos_value max_size rest batch tx_amount (pending ++ [req])
    else
      build_batch_go available_utxos_value max_size rest (batch ++ [req])
        (tx_amount + req.amount) pending

/-- `CkBtcMinterState::build_batch`: returns the batch and the updated state. -/
def CkBtcMinterState.build_batch (s : CkBtcMinterState) (max_size : Nat) :
    List RetrieveBtcRequest × CkBtcMinterState :=
  let available_utxos_value := (s.available_utxos.map (fun u => u.value)).sum
  let r := build_batch_go available_utxos_value max_size s.pending_retrieve_btc_requests [] 0 []
  (r.1, { s with pending_retrieve_btc_requests := r.2 })

/-- `CkBtcMinterState::forget_utxo`. -/
def CkBtcMinterState.forget_utxo (s : CkBtcMinterState) (utxo : Utxo) : CkBtcMinterState :=
  match mlookup s.outpoint_account utxo.outpoint with
  | none => s
  | some account =>
    let s := { s with outpoint_account := merase s.outpoint_account utxo.outpoint }
    let s :=
      if account ∈ s.update_balance_accounts then
        { s with finalized_utxos := (minsert s.finalized_utxos account
            (sinsert ((mlookup s.finalized_utxos account).getD []) utxo)) }
      else s
    match mlookup s.utxos_state_addresses account with
    | some utxo_set =>
        let utxo_set := sremove utxo_set utxo
        if utxo_set.isEmpty then
          { s with utxos_state_addresses := merase s.utxos_state_addresses account }
        else
          { s with utxos_state_addresses := minsert s.utxos_state_addresses account utxo_set }
    | none => s

/-- `Vec::swap_remove`: overwrite position `i` with the last element and pop. -/
def swapRemove {A : Type} (l : List A) (i : Nat) : List A :=
  match l.getLast? with
  | none => l
  | some x => (l.set i x).dropLast

/-- Find a transaction by id in a vector and `swap_remove` it, returning the
transaction and the remaining vector. -/
def extract_tx (l : List SubmittedBtcTransaction) (txid : Txid) :
    Option (SubmittedBtcTransaction × List SubmittedBtcTransaction) :=
  match l.findIdx? (fun tx => tx.txid == txid) with
  | none => none
  | some pos =>
    match l[pos]? with
    | none => none
    | some tx => some (tx, swapRemove l pos)

/-- The unconditional part of `push_finalized_request`: FIFO eviction at
`MAX_FINALIZED_REQUESTS`, then `push_back`. -/
def push_finalized_core (q : List FinalizedBtcRetrieval) (req : FinalizedBtcRetrieval) :
    List FinalizedBtcRetrieval :=
  if MAX_FINALIZED_REQUESTS ≤ q.length then q.tail ++ [req] else q ++ [req]

/-- `CkBtcMinterState::push_finalized_request`; `none` models the assertion
that the request must not be pending. -/
def CkBtcMinterState.push_finalized_request (s : CkBtcMinterState)
    (req : FinalizedBtcRetrieval) : Option CkBtcMinterState :=
  if s.has_pending_request req.request.block_index then none
  else some { s with finalized_requests := push_finalized_core s.finalized_requests req }

/-- First loop of `cleanup_tx_replacement_chain`: repeatedly follow and erase
the `replacement_txid` edge out of `to_edge`, erasing the matching
`rev_replacement_txid` edge and collecting the visited ids. -/
def cleanup_collect_first (rep rev : List (Txid × Txid)) (to_edge : Txid)
    (acc : List Txid) : List (Txid × Txid) × List (Txid × Txid) × List Txid :=
  match h : mlookup rep to_edge with
  | none => (rep, rev, acc)
  | some from_edge =>
      cleanup_collect_first (merase rep to_edge) (merase rev from_edge) from_edge
        (acc ++ [from_edge])
termination_by rep.length
decreasing_by exact merase_length_lt h

/-- Second loop of `cleanup_tx_replacement_chain`: repeatedly follow and erase
the `rev_replacement_txid` edge out of `from_edge`, collecting the visited ids. -/
def cleanup_collect_second (rev : List (Txid × Txid)) (from_edge : Txid)
    (acc : List Txid) : List (Txid × Txid) × List Txid :=
  match h : mlookup rev from_edge with
  | none => (rev, acc)
  | some to_edge =>
      cleanup_collect_second (merase rev from_edge) to_edge (acc ++ [to_edge])
termination_by rev.length
decreasing_by exact merase_length_lt h

/-- Unfolding lemma: the first cleanup walk stops when no `replacement_txid`
edge leaves `to_edge`. -/
theorem cleanup_collect_first_eq_none (rep rev : List (Txid × Txid)) (t : Txid)
    (acc : List Txid) (h : mlookup rep t = none) :
    cleanup_collect_first rep rev t acc = (rep, rev, acc) := by
  rw [cleanup_collect_first]
  split
  · rfl
  · next e he => rw [h] at he; cases he

/-- Unfolding lemma: one step of the first cleanup walk along an edge. -/
theorem cleanup_collect_first_eq_some (rep rev : List (Txid × Txid)) (t : Txid)
    (acc : List Txid) (e : Txid) (h : mlookup rep t = some e) :
    cleanup_collect_first rep rev t acc =
      cleanup_collect_first (merase rep t) (merase rev e) e (acc ++ [e]) := by
  rw [cleanup_collect_first]
  split
  · next he => rw [h] at he; cases he
  · next f hf =>
      rw [h] at hf
      injection hf with hf
      subst hf
      rfl

/-- Unfolding lemma: the second cleanup walk stops when no
`rev_replacement_txid` edge leaves `from_edge`. -/
theorem cleanup_collect_second_eq_none (rev : List (Txid × Txid)) (t : Txid)
    (acc : List Txid) (h : mlookup rev t = none) :
    cleanup_collect_second rev t acc = (rev, acc) := by
  rw [cleanup_collect_second]
  split
  · rfl
  · next e he => rw [h] at he; cases he

/-- Unfolding lemma: one step of the second cleanup walk along an edge. -/
theorem cleanup_collect_second_eq_some (rev : List (Txid × Txid)) (t : Txid)
    (acc : List Txid) (e : Txid) (h : mlookup rev t = some e) :
    cleanup_collect_second rev t acc =
      cleanup_collect_second (merase rev t) e (acc ++ [e]) := by
  rw [cleanup_collect_second]
  split
  · next he => rw [h] at he; cases he
  · next f hf =>
      rw [h] at hf
      injection hf with hf
      subst hf
      rfl

/-- `CkBtcMinterState::cleanup_tx_replacement_chain`.  The `BTreeSet` of ids to
remove becomes a list; it is only used for `contains` and repeated erasure, so
possible duplicates do not change the result. -/
def CkBtcMinterState.cleanup_tx_replacement_chain (s : CkBtcMinterState)
    (confirmed_txid : Txid) : CkBtcMinterState :=
  let step1 := cleanup_collect_first s.replacement_txid s.rev_replacement_txid confirmed_txid []
  let step2 := cleanup_collect_second step1.2.1 confirmed_txid step1.2.2
  let txids_to_remove := step2.2
  let rep := txids_to_remove.foldl merase step1.1
  let rev := txids_to_remove.foldl merase step2.1
  if txids_to_remove.isEmpty then
    { s with replacement_txid := rep, rev_replacement_txid := rev }
  else
    { s with
      replacement_txid := rep,
      rev_replacement_txid := rev,
      submitted_transactions := (s.submitted_transactions.filter
        (fun tx => !(txids_to_remove.contains tx.txid))),
      stuck_transactions := (s.stuck_transactions.filter
        (fun tx => !(txids_to_remove.contains tx.txid))) }

/-- The tail of `finalize_transaction` after the confirmed transaction has been
removed from its vector: forget the used UTXOs, bump the counter, finalize each
request (the per-request pending assertion is the `Option`), clean up the
replacement chain. -/
def CkBtcMinterState.finalize_transaction_rest (s : CkBtcMinterState) (txid : Txid)
    (finalized_tx : SubmittedBtcTransaction) : Option CkBtcMinterState :=
  let s := finalized_tx.used_utxos.foldl CkBtcMinterState.forget_utxo s
  let s := { s with finalized_requests_count :=
      (s.finalized_requests_count + finalized_tx.requests.length) }
  match finalized_tx.requests.foldlM (fun st request =>
      CkBtcMinterState.push_finalized_request st
        { request := request, state := FinalizedStatus.Confirmed txid }) s with
  | none => none
  | some s => some (s.cleanup_tx_replacement_chain txid)

/-- `CkBtcMinterState::finalize_transaction`; `none` models the trap on an
unknown transaction id and the pending-request assertion. -/
def CkBtcMinterState.finalize_transaction (s : CkBtcMinterState) (txid : Txid) :
    Option CkBtcMinterState :=
  match extract_tx s.submitted_transactions txid with
  | some r =>
      CkBtcMinterState.finalize_transaction_rest
        { s with submitted_transactions := r.2 } txid r.1
  | none =>
    match extract_tx s.stuck_transactions txid with
    | some r =>
        CkBtcMinterState.finalize_transaction_rest
          { s with stuck_transactions := r.2 } txid r.1
    | none => none

/-- `CkBtcMinterState::replace_transaction`; `none` models the assertions. -/
def CkBtcMinterState.replace_transaction (s : CkBtcMinterState) (old_txid : Txid)
    (tx : SubmittedBtcTransaction) : Option CkBtcMinterState :=
  if old_txid = tx.txid then none
  else if (mlookup s.replacement_txid old_txid).isSome then none
  else if tx.requests.any (fun req => s.has_pending_request req.block_index) then none
  else
    match s.submitted_transactions.findIdx? (fun t => t.txid == old_txid) with
    | none => none
    | some pos =>
      match s.submitted_transactions[pos]? with
      | none => none
      | some old_tx =>
        some { s with
          submitted_transactions := s.submitted_transactions.set pos tx,
          stuck_transactions := s.stuck_transactions ++ [old_tx],
          replacement_txid := minsert s.replacement_txid old_txid tx.txid,
          rev_replacement_txid := minsert s.rev_replacement_txid tx.txid old_txid }

/-- `CkBtcMinterState::push_back_pending_request`; `none` models the queue
ordering assertion. -/
def CkBtcMinterState.push_back_pending_request (s : CkBtcMinterState)
    (request : RetrieveBtcRequest) : Option CkBtcMinterState :=
  if h : ∀ last_req ∈ s.pending_retrieve_btc_requests.getLast?,
      last_req.received_at ≤ request.received_at then
    some { s with
      tokens_burned := s.tokens_burned + request.amount,
      owed_kyt_amount := (match request.kyt_provider with
        | some kyt_provider =>
            minsert s.owed_kyt_amount kyt_provider
              (((mlookup s.owed_kyt_amount kyt_provider).getD 0) + s.check_fee)
        | none => s.owed_kyt_amount),
      pending_retrieve_btc_requests := s.pending_retrieve_btc_requests ++ [request] }
  else none

/-- `CkBtcMinterState::push_in_flight_request`; `none` models the assertion. -/
def CkBtcMinterState.push_in_flight_request (s : CkBtcMinterState) (block_index : Nat)
    (status : InFlightStatus) : Option CkBtcMinterState :=
  if s.has_pending_request block_index then none
  else some { s with requests_in_flight := minsert s.requests_in_flight block_index status }

/-- `CkBtcMinterState::push_submitted_transaction`; `none` models the assertion. -/
def CkBtcMinterState.push_submitted_transaction (s : CkBtcMinterState)
    (tx : SubmittedBtcTransaction) : Option CkBtcMinterState :=
  if tx.requests.any (fun req => s.has_pending_request req.block_index) then none
  else some { s with
    requests_in_flight := (tx.requests.foldl
      (fun m req => merase m req.block_index) s.requests_in_flight),
    submitted_transactions := s.submitted_transactions ++ [tx] }

/-- `CkBtcMinterState::add_utxos` (without the debug invariant re-check). -/
def CkBtcMinterState.add_utxos (s : CkBtcMinterState) (account : Account)
    (utxos : List Utxo) : CkBtcMinterState :=
  if utxos.isEmpty then s
  else
    let s := { s with tokens_minted := s.tokens_minted + (utxos.map (fun u => u.value)).sum }
    utxos.foldl (fun s utxo =>
      { s with
        outpoint_account := minsert s.outpoint_account utxo.outpoint account,
        available_utxos := sinsert s.available_utxos utxo,
        checked_utxos := merase s.checked_utxos utxo,
        utxos_state_addresses := (minsert s.utxos_state_addresses account
          (sinsert ((mlookup s.utxos_state_addresses account).getD []) utxo)) }) s

/-! ### Reimbursements -/

/-- `CkBtcMinterState::schedule_deposit_reimbursement`. -/
def CkBtcMinterState.schedule_deposit_reimbursement (s : CkBtcMinterState)
    (burn_block_index : Nat) (reimburse_deposit_task : ReimburseDepositTask) :
    CkBtcMinterState :=
  let s :=
    match reimburse_deposit_task.reason with
    | ReimbursementReason.TaintedDestination kyt_provider kyt_fee =>
        if 0 < kyt_fee then
          { s with owed_kyt_amount := (minsert s.owed_kyt_amount kyt_provider
              (((mlookup s.owed_kyt_amount kyt_provider).getD 0) + kyt_fee)) }
        else s
    | ReimbursementReason.CallFailed => s
  { s with
    retrieve_btc_account_to_block_indices :=
      (minsert s.retrieve_btc_account_to_block_indices reimburse_deposit_task.account
        (((mlookup s.retrieve_btc_account_to_block_indices
            reimburse_deposit_task.account).getD []) ++ [burn_block_index])),
    pending_reimbursements :=
      (minsert s.pending_reimbursements burn_block_index reimburse_deposit_task) }

/-- Modelled from the spec: the completion step of a reimbursement
("complete(block_index, mint_block_index)" in the spec) is not part of
state.rs; it moves an entry from `pending_reimbursements` to
`reimbursed_transactions`, promoting the task to a `ReimbursedDeposit` with the
given `mint_block_index`. -/
def CkBtcMinterState.complete_reimbursement (s : CkBtcMinterState)
    (block_index mint_block_index : Nat) : CkBtcMinterState :=
  match mlookup s.pending_reimbursements block_index with
  | none => s
  | some task =>
    { s with
      pending_reimbursements := merase s.pending_reimbursements block_index,
      reimbursed_transactions := (minsert s.reimbursed_transactions block_index
        { account := task.account, amount := task.amount, reason := task.reason,
          mint_block_index := mint_block_index }) }

/-! ### Suspended UTXOs -/

/-- `SuspendedUtxos::insert`: returns the `bool` of the source together with
the updated registry. -/
def SuspendedUtxos.insert (su : SuspendedUtxos) (account : Account) (utxo : Utxo)
    (reason : SuspendedReason) (now : Option Timestamp) : Bool × SuspendedUtxos :=
  let su :=
    match now with
    | some timestamp =>
        { su with last_time_checked_cache := (minsert su.last_time_checked_cache utxo timestamp) }
    | none => su
  if ((mlookup su.utxos account).bind (fun u => mlookup u utxo)) = some reason then
    (false, su)
  else
    (true,
     { su with
       utxos_without_account := merase su.utxos_without_account utxo,
       utxos := (minsert su.utxos account
         (minsert ((mlookup su.utxos account).getD []) utxo reason)) })

/-- `SuspendedUtxos::remove`. -/
def SuspendedUtxos.remove (su : SuspendedUtxos) (account : Account) (utxo : Utxo) :
    SuspendedUtxos :=
  { su with
    last_time_checked_cache := merase su.last_time_checked_cache utxo,
    utxos_without_account := merase su.utxos_without_account utxo,
    utxos := (match mlookup su.utxos account with
      | some utxos => minsert su.utxos account (merase utxos utxo)
      | none => su.utxos) }

/-- `SuspendedUtxos::contains_utxo`. -/
def SuspendedUtxos.contains_utxo (su : SuspendedUtxos) (utxo : Utxo) (account : Account) :
    Option Timestamp × Option SuspendedReason :=
  (mlookup su.last_time_checked_cache utxo,
   match (mlookup su.utxos account).bind (fun u => mlookup u utxo) with
   | some r => some r
   | none => mlookup su.utxos_without_account utxo)

/-- `CkBtcMinterState::suspend_utxo` (without the debug consistency check,
whose failure is covered by `ensure_reason_consistent_with_state`). -/
def CkBtcMinterState.suspend_utxo (s : CkBtcMinterState) (utxo : Utxo) (account : Account)
    (reason : SuspendedReason) (now : Timestamp) : Option (Bool × CkBtcMinterState) :=
  match reason with
  | SuspendedReason.ValueTooSmall =>
      if utxo.value ≤ s.check_fee then
        let r := s.suspended_utxos.insert account utxo reason (some now)
        some (r.1, { s with suspended_utxos := r.2 })
      else none
  | SuspendedReason.Quarantined =>
      let r := s.suspended_utxos.insert account utxo reason (some now)
      some (r.1, { s with suspended_utxos := r.2 })

/-! ### Processable UTXOs -/

/-- `ProcessableUtxos::assert_utxo_is_fresh` as a predicate. -/
def ProcessableUtxos.utxo_is_fresh (p : ProcessableUtxos) (utxo : Utxo) : Prop :=
  utxo ∉ p.new_utxos ∧ utxo ∉ p.previously_quarantined_utxos ∧
    utxo ∉ p.previously_ignored_utxos

instance (p : ProcessableUtxos) (utxo : Utxo) : Decidable (p.utxo_is_fresh utxo) := by
  unfold ProcessableUtxos.utxo_is_fresh; infer_instance

/-- `ProcessableUtxos::insert_once_suspended_utxo`; `none` models the
freshness assertion. -/
def ProcessableUtxos.insert_once_suspended_utxo (p : ProcessableUtxos) (utxo : Utxo)
    (reason : SuspendedReason) : Option ProcessableUtxos :=
  if p.utxo_is_fresh utxo then
    some (match reason with
      | SuspendedReason.ValueTooSmall =>
          { p with previously_ignored_utxos := sinsert p.previously_ignored_utxos utxo }
      | SuspendedReason.Quarantined =>
          { p with previously_quarantined_utxos := sinsert p.previously_quarantined_utxos utxo })
  else none

/-- `ProcessableUtxos::insert_once_new_utxo`; `none` models the freshness
assertion. -/
def ProcessableUtxos.insert_once_new_utxo (p : ProcessableUtxos) (utxo : Utxo) :
    Option ProcessableUtxos :=
  if p.utxo_is_fresh utxo then some { p with new_utxos := sinsert p.new_utxos utxo }
  else none

/-- The iteration order of `ProcessableUtxos`: new, then previously ignored,
then previously quarantined. -/
def ProcessableUtxos.iterList (p : ProcessableUtxos) : List Utxo :=
  p.new_utxos ++ p.previously_ignored_utxos ++ p.previously_quarantined_utxos

/-- The loop body of `processable_utxos_for_account`. -/
def processable_step (s : CkBtcMinterState) (account : Account) (now : Timestamp)
    (st : ProcessableUtxos × List SuspendedUtxo) (utxo : Utxo) :
    Option (ProcessableUtxos × List SuspendedUtxo) :=
  let is_known :=
    decide (utxo ∈ (mlookup s.utxos_state_addresses account).getD []) ||
      decide (utxo ∈ (mlookup s.finalized_utxos account).getD [])
  match s.suspended_utxos.contains_utxo utxo account with
  | (some last_time_checked, some reason) =>
    let sus : SuspendedUtxo :=
      { utxo := utxo, reason := reason,
        earliest_retry := Timestamp.saturating_add last_time_checked DAY }
    (match Timestamp.checked_duration_since now last_time_checked with
     | some elapsed =>
        if DAY ≤ elapsed then
          (st.1.insert_once_suspended_utxo utxo reason).map (fun p => (p, st.2))
        else
          some (st.1, st.2 ++ [sus])
     | none => some (st.1, st.2 ++ [sus]))
  | (none, some reason) =>
      (st.1.insert_once_suspended_utxo utxo reason).map (fun p => (p, st.2))
  | (_, none) =>
      if is_known then some st
      else (st.1.insert_once_new_utxo utxo).map (fun p => (p, st.2))

/-- `CkBtcMinterState::processable_utxos_for_account`; `none` models the
freshness assertions inside the partition inserts. -/
def CkBtcMinterState.processable_utxos_for_account (s : CkBtcMinterState)
    (all_utxos_for_account : List Utxo) (account : Account) (now : Timestamp) :
    Option (ProcessableUtxos × List SuspendedUtxo) :=
  all_utxos_for_account.foldlM (processable_step s account now) ({}, [])

/-! ### Occurrence counts of a burn block index -/

/-- Occurrences of a burn block index in a request list. -/
def occReqs (l : List RetrieveBtcRequest) (b : Nat) : Nat :=
  l.countP (fun r => r.block_index == b)

/-- Occurrences of a burn block index across the requests of a transaction list. -/
def occTxs (l : List SubmittedBtcTransaction) (b : Nat) : Nat :=
  (l.map (fun tx => occReqs tx.requests b)).sum

/-- Occurrences of a burn block index in the pending queue. -/
def CkBtcMinterState.occPending (s : CkBtcMinterState) (b : Nat) : Nat :=
  occReqs s.pending_retrieve_btc_requests b

/-- Occurrences of a burn block index among the in-flight requests. -/
def CkBtcMinterState.occInFlight (s : CkBtcMinterState) (b : Nat) : Nat :=
  s.requests_in_flight.countP (fun p => p.1 == b)

/-- Occurrences of a burn block index among the finalized requests. -/
def CkBtcMinterState.occFinalized (s : CkBtcMinterState) (b : Nat) : Nat :=
  s.finalized_requests.countP (fun f => f.request.block_index == b)

/-- Occurrences of a burn block index across all five request collections:
pending, in flight, submitted, stuck and finalized. -/
def CkBtcMinterState.block_index_count (s : CkBtcMinterState) (b : Nat) : Nat :=
  s.occPending b + s.occInFlight b + occTxs s.submitted_transactions b +
    occTxs s.stuck_transactions b + s.occFinalized b

/-- Occurrences of a burn block index across the four collections other than
the stuck transactions. -/
def CkBtcMinterState.block_index_count_active (s : CkBtcMinterState) (b : Nat) : Nat :=
  s.occPending b + s.occInFlight b + occTxs s.submitted_transactions b + s.occFinalized b

/-! ### Association-list lemmas -/

theorem mlookup_minsert {K V : Type} [DecidableEq K] (m : List (K × V)) (k q : K) (v : V) :
    mlookup (minsert m k v) q = if k = q then some v else mlookup m q := by
  induction m with
  | nil => simp [minsert, mlookup]
  | cons hd tl ih =>
    obtain ⟨a, b⟩ := hd
    by_cases hak : a = k
    · subst hak
      simp only [minsert, if_pos rfl, mlookup]
      by_cases haq : a = q
      · simp [haq]
      · simp [haq, mlookup]
    · simp only [minsert, if_neg hak, mlookup]
      by_cases haq : a = q
      · subst haq
        have : ¬k = a := fun h => hak h.symm
        simp [this]
      · simp [haq, ih]

theorem mlookup_merase {K V : Type} [DecidableEq K] (m : List (K × V)) (k q : K) :
    mlookup (merase m k) q = if q = k then none else mlookup m q := by
  induction m with
  | nil => simp [merase, mlookup]
  | cons hd tl ih =>
    obtain ⟨a, b⟩ := hd
    by_cases hak : a = k
    · subst hak
      have he : merase ((a, b) :: tl) a = merase tl a := by
        simp [merase, List.filter]
      rw [he, ih]
      by_cases haq : q = a
      · simp [haq]
      · have : ¬a = q := fun h => haq h.symm
        simp [haq, mlookup, this]
    · have he : merase ((a, b) :: tl) k = (a, b) :: merase tl k := by
        simp [merase, List.filter, hak]
      rw [he]
      by_cases haq : a = q
      · subst haq
        simp [mlookup, hak]
      · simp [mlookup, haq, ih]

/-! ### Claim C8 -/

/-- Claim C8: `is_withdrawal_available_for` returns Ok under
GeneralAvailability and DepositsRestrictedTo, and returns a message string
(never trapping) exactly under ReadOnly or RestrictedTo without the principal;
`is_deposit_available_for` errors exactly under ReadOnly, RestrictedTo without
the principal, or DepositsRestrictedTo without the principal. -/
theorem mode_availability_spec :
    ∀ (m : Mode) (p : Principal),
      (∀ l, Mode.GeneralAvailability.is_withdrawal_available_for p = Except.ok () ∧
        (Mode.DepositsRestrictedTo l).is_withdrawal_available_for p = Except.ok ()) ∧
      ((∃ msg : String, m.is_withdrawal_available_for p = Except.error msg) ↔
        (m = Mode.ReadOnly ∨ ∃ l, m = Mode.RestrictedTo l ∧ p ∉ l)) ∧
      ((∃ msg : String, m.is_deposit_available_for p = Except.error msg) ↔
        (m = Mode.ReadOnly ∨ (∃ l, m = Mode.RestrictedTo l ∧ p ∉ l) ∨
          (∃ l, m = Mode.DepositsRestrictedTo l ∧ p ∉ l))) := by
  intro m p
  refine ⟨fun l => ⟨rfl, rfl⟩, ?_, ?_⟩
  · cases m with
    | ReadOnly => simp [Mode.is_withdrawal_available_for]
    | GeneralAvailability => simp [Mode.is_withdrawal_available_for]
    | DepositsRestrictedTo l => simp [Mode.is_withdrawal_available_for]
    | RestrictedTo l =>
        by_cases hp : p ∈ l <;> simp [Mode.is_withdrawal_available_for, hp]
  · cases m with
    | ReadOnly => simp [Mode.is_deposit_available_for]
    | GeneralAvailability => simp [Mode.is_deposit_available_for]
    | DepositsRestrictedTo l =>
        by_cases hp : p ∈ l <;> simp [Mode.is_deposit_available_for, hp]
    | RestrictedTo l =>
        by_cases hp : p ∈ l <;> simp [Mode.is_deposit_available_for, hp]

/-! ### Claim C10 -/

/-- Claim C10: `distribute_kyt_fee` with amount 0 returns Ok and leaves the
whole state unchanged, even for an unknown provider; in general the call
returns an Overdraft error exactly when the amount is positive and exceeds the
current balance, an absent entry counting as zero. -/
theorem distribute_kyt_fee_zero_spec :
    ∀ (s : CkBtcMinterState) (provider : Principal),
      s.distribute_kyt_fee provider 0 = (Except.ok (), s) ∧
      ∀ amount : Nat,
        ((∃ d : Overdraft, (s.distribute_kyt_fee provider amount).1 = Except.error d) ↔
          (0 < amount ∧ (mlookup s.owed_kyt_amount provider).getD 0 < amount)) := by
  intro s provider
  constructor
  · simp [CkBtcMinterState.distribute_kyt_fee]
  · intro amount
    by_cases h0 : amount = 0
    · subst h0
      simp [CkBtcMinterState.distribute_kyt_fee]
    · cases hl : mlookup s.owed_kyt_amount provider with
      | none =>
          simp [CkBtcMinterState.distribute_kyt_fee, h0, hl, Nat.pos_of_ne_zero h0]
      | some balance =>
          by_cases hb : balance < amount
          · simp [CkBtcMinterState.distribute_kyt_fee, h0, hl, hb, Nat.pos_of_ne_zero h0]
          · by_cases hz : balance - amount = 0 <;>
              simp [CkBtcMinterState.distribute_kyt_fee, h0, hl, hb, hz]

/-! ### Claim C6 -/

/-- Claim C6: for a positive amount, `distribute_kyt_fee` subtracts the amount
and returns Ok when covered by the balance (deleting the key when the balance
reaches zero); when the amount exceeds the balance it returns
Overdraft (amount - balance) and the key is removed; an absent entry behaves
as balance zero and is reported as Overdraft (amount). -/
theorem distribute_kyt_fee_spec :
    ∀ (s : CkBtcMinterState) (provider : Principal) (amount : Nat), 0 < amount →
      (∀ balance, mlookup s.owed_kyt_amount provider = some balance →
        (amount ≤ balance →
          (s.distribute_kyt_fee provider amount).1 = Except.ok () ∧
          mlookup ((s.distribute_kyt_fee provider amount).2).owed_kyt_amount provider =
            (if balance = amount then none else some (balance - amount))) ∧
        (balance < amount →
          (s.distribute_kyt_fee provider amount).1 = Except.error { amount := amount - balance } ∧
          mlookup ((s.distribute_kyt_fee provider amount).2).owed_kyt_amount provider = none)) ∧
      (mlookup s.owed_kyt_amount provider = none →
        (s.distribute_kyt_fee provider amount).1 = Except.error { amount := amount } ∧
        ((s.distribute_kyt_fee provider amount).2).owed_kyt_amount = s.owed_kyt_amount) := by
  intro s provider amount hpos
  have h0 : ¬amount = 0 := Nat.pos_iff_ne_zero.mp hpos
  constructor
  · intro balance hl
    constructor
    · intro hle
      have hb : ¬balance < amount := Nat.not_lt.mpr hle
      by_cases hz : balance - amount = 0
      · have heq : balance = amount := Nat.le_antisymm (Nat.sub_eq_zero_iff_le.mp hz) hle
        simp [CkBtcMinterState.distribute_kyt_fee, h0, hl, hb, hz, heq, mlookup_merase]
      · have hne : ¬balance = amount := by
          intro hc; exact hz (by omega)
        simp [CkBtcMinterState.distribute_kyt_fee, h0, hl, hb, hz, hne, mlookup_minsert]
    · intro hlt
      simp [CkBtcMinterState.distribute_kyt_fee, h0, hl, hlt, mlookup_merase]
  · intro hl
    simp [CkBtcMinterState.distribute_kyt_fee, h0, hl]

/-- Witness for C6, matching the overdraft example of the claim: with a
balance of 500 owed to provider 5, distributing 800 yields Overdraft 300 and
removes the key. -/
theorem distribute_kyt_fee_spec_witness :
    (0 < 800) ∧
    (mlookup ({ owed_kyt_amount := [(5, 500)] } : CkBtcMinterState).owed_kyt_amount 5 =
      some 500) ∧
    (({ owed_kyt_amount := [(5, 500)] } : CkBtcMinterState).distribute_kyt_fee 5 800).1 =
      Except.error { amount := 300 } ∧
    mlookup ((({ owed_kyt_amount := [(5, 500)] } : CkBtcMinterState).distribute_kyt_fee
      5 800).2).owed_kyt_amount 5 = none := by
  refine ⟨by decide, rfl, ?_⟩
  have h := ((distribute_kyt_fee_spec { owed_kyt_amount := [(5, 500)] } 5 800
    (by decide)).1 500 rfl).2 (by decide)
  exact h

/-! ### Claim C9 -/

/-- Claim C9: when `SuspendedUtxos::insert` is given an (account, utxo, reason)
triple already recorded, it returns false and leaves both suspension
partitions unchanged, yet still overwrites the last-time-checked cache entry
of the utxo with `now`. -/
theorem suspended_insert_repeated_triple_spec :
    ∀ (su : SuspendedUtxos) (account : Account) (utxo : Utxo)
      (reason : SuspendedReason) (now : Timestamp),
      ((mlookup su.utxos account).bind (fun u => mlookup u utxo)) = some reason →
      (su.insert account utxo reason (some now)).1 = false ∧
      ((su.insert account utxo reason (some now)).2).utxos = su.utxos ∧
      ((su.insert account utxo reason (some now)).2).utxos_without_account =
        su.utxos_without_account ∧
      mlookup ((su.insert account utxo reason (some now)).2).last_time_checked_cache utxo =
        some now := by
  intro su account utxo reason now h
  simp [SuspendedUtxos.insert, h, mlookup_minsert]

/-- A concrete account used by witnesses. -/
def witness_account : Account := { owner := 1, subaccount := none }

/-- A concrete utxo used by witnesses. -/
def witness_utxo : Utxo := { outpoint := { txid := 3, vout := 0 }, value := 50, height := 2 }

/-- A registry in which `witness_utxo` is already suspended as Quarantined. -/
def suspended_witness_registry : SuspendedUtxos :=
  { utxos_without_account := [],
    utxos := [(witness_account, [(witness_utxo, SuspendedReason.Quarantined)])],
    last_time_checked_cache := [(witness_utxo, 100)] }

/-- Witness for C9: a concrete registry with utxo already suspended as
Quarantined for the account; re-inserting the same triple reports false but
refreshes the cache. -/
theorem suspended_insert_repeated_triple_spec_witness :
    ((mlookup (suspended_witness_registry.utxos) witness_account).bind
      (fun u => mlookup u witness_utxo)) = some SuspendedReason.Quarantined ∧
    (suspended_witness_registry.insert witness_account witness_utxo
      SuspendedReason.Quarantined (some 999)).1 = false ∧
    ((suspended_witness_registry.insert witness_account witness_utxo
      SuspendedReason.Quarantined (some 999)).2).utxos = suspended_witness_registry.utxos ∧
    mlookup ((suspended_witness_registry.insert witness_account witness_utxo
      SuspendedReason.Quarantined (some 999)).2).last_time_checked_cache witness_utxo =
      some 999 := by
  refine ⟨rfl, ?_⟩
  have h := suspended_insert_repeated_triple_spec suspended_witness_registry
    witness_account witness_utxo SuspendedReason.Quarantined 999 rfl
  exact ⟨h.1, h.2.1, h.2.2.2⟩

/-! ### Claim C5 -/

/-- A minter state whose check fee is zero; `validate_config` accepts such a
configuration since the check fee does not exceed the minimum retrieve
amount. -/
def zero_fee_state : CkBtcMinterState := { check_fee := 0 }

/-- A retrieve_btc request carrying a KYT provider. -/
def c5_request : RetrieveBtcRequest :=
  { amount := 1000, address := 0, block_index := 1, received_at := 0,
    kyt_provider := some 7, reimbursement_account := none }

/-- Claim C5 counterexample: with a zero check fee, enqueueing a request with
a kyt_provider leaves a key in owed_kyt_amount whose balance is zero, so the
no-zero-entry property does not hold for every state-writing operation. -/
theorem push_back_zero_check_fee_creates_zero_entry :
    ∃ s : CkBtcMinterState,
      zero_fee_state.push_back_pending_request c5_request = some s ∧
      mlookup s.owed_kyt_amount 7 = some 0 :=
  ⟨_, rfl, rfl⟩

/-- No entry of owed_kyt_amount carries a zero balance. -/
def owed_nonzero (s : CkBtcMinterState) : Prop :=
  ∀ p v, mlookup s.owed_kyt_amount p = some v → 0 < v

/-- Claim C5 (amended): provided the check fee is positive, each operation
that writes owed_kyt_amount - enqueueing a request with a kyt_provider,
scheduling a TaintedDestination reimbursement, and distributing a fee -
preserves the property that no key has a zero balance. -/
theorem owed_kyt_amount_nonzero_preserved :
    ∀ s : CkBtcMinterState, owed_nonzero s → 0 < s.check_fee →
      (∀ request s₂, s.push_back_pending_request request = some s₂ → owed_nonzero s₂) ∧
      (∀ b task, owed_nonzero (s.schedule_deposit_reimbursement b task)) ∧
      (∀ provider amount, owed_nonzero (s.distribute_kyt_fee provider amount).2) := by
  intro s hs hcf
  refine ⟨?_, ?_, ?_⟩
  · intro request s₂ h
    unfold CkBtcMinterState.push_back_pending_request at h
    split at h
    · cases h
      intro p v hv
      simp only at hv
      cases hkp : request.kyt_provider with
      | none => rw [hkp] at hv; exact hs p v hv
      | some kp =>
          rw [hkp] at hv
          rw [mlookup_minsert] at hv
          by_cases hkpp : kp = p
          · rw [if_pos hkpp] at hv
            cases hv
            omega
          · rw [if_neg hkpp] at hv
            exact hs p v hv
    · exact absurd h (by simp)
  · intro b task
    intro p v hv
    obtain ⟨tacct, tamt, treason⟩ := task
    cases treason with
    | CallFailed =>
        simp only [CkBtcMinterState.schedule_deposit_reimbursement] at hv
        exact hs p v hv
    | TaintedDestination kp fee =>
        simp only [CkBtcMinterState.schedule_deposit_reimbursement] at hv
        by_cases hf : 0 < fee
        · rw [if_pos hf] at hv
          simp only at hv
          rw [mlookup_minsert] at hv
          by_cases hkpp : kp = p
          · rw [if_pos hkpp] at hv
            cases hv
            omega
          · rw [if_neg hkpp] at hv
            exact hs p v hv
        · rw [if_neg hf] at hv
          exact hs p v hv
  · intro provider amount p v hv
    unfold CkBtcMinterState.distribute_kyt_fee at hv
    by_cases h0 : amount = 0
    · rw [if_pos h0] at hv
      exact hs p v hv
    · rw [if_neg h0] at hv
      cases hl : mlookup s.owed_kyt_amount provider with
      | none =>
          simp only [hl] at hv
          exact hs p v hv
      | some balance =>
          simp only [hl] at hv
          by_cases hb : balance < amount
          · rw [if_pos hb] at hv
            simp only at hv
            rw [mlookup_merase] at hv
            by_cases hpp : p = provider
            · rw [if_pos hpp] at hv; cases hv
            · rw [if_neg hpp] at hv; exact hs p v hv
          · rw [if_neg hb] at hv
            by_cases hz : balance - amount = 0
            · rw [if_pos hz] at hv
              simp only at hv
              rw [mlookup_merase] at hv
              by_cases hpp : p = provider
              · rw [if_pos hpp] at hv; cases hv
              · rw [if_neg hpp] at hv; exact hs p v hv
            · rw [if_neg hz] at hv
              simp only at hv
              rw [mlookup_minsert] at hv
              by_cases hpp : provider = p
              · rw [if_pos hpp] at hv
                cases hv
                omega
              · rw [if_neg hpp] at hv
                exact hs p v hv

/-- Witness for the amended C5: the preservation statements instantiated at
the default (empty, positive-fee) state. -/
theorem owed_kyt_amount_nonzero_preserved_witness :
    owed_nonzero ({} : CkBtcMinterState) ∧ 0 < ({} : CkBtcMinterState).check_fee ∧
    (∀ request s₂, ({} : CkBtcMinterState).push_back_pending_request request = some s₂ →
      owed_nonzero s₂) ∧
    (∀ b task, owed_nonzero (({} : CkBtcMinterState).schedule_deposit_reimbursement b task)) ∧
    (∀ provider amount,
      owed_nonzero (({} : CkBtcMinterState).distribute_kyt_fee provider amount).2) := by
  have h0 : owed_nonzero ({} : CkBtcMinterState) := by
    intro p v hv
    simp [mlookup] at hv
  have h := owed_kyt_amount_nonzero_preserved {} h0 (by decide)
  exact ⟨h0, by decide, h.1, h.2.1, h.2.2⟩

/-! ### Claim C4 -/

theorem findSome?_of_mem_isSome {α β : Type} (l : List α) (f : α → Option β) (x : α)
    (hx : x ∈ l) (hfx : (f x).isSome) :
    ∃ y, l.findSome? f = some y ∧ ∃ z ∈ l, f z = some y := by
  induction l with
  | nil => cases hx
  | cons a t ih =>
    cases hfa : f a with
    | some y =>
        exact ⟨y, by rw [List.findSome?_cons, hfa], a, List.mem_cons_self a t, hfa⟩
    | none =>
        rcases List.mem_cons.mp hx with hxa | hxt
        · subst hxa; rw [hfa] at hfx; cases hfx
        · obtain ⟨y, hy, z, hz, hfz⟩ := ih hxt
          exact ⟨y, by rw [List.findSome?_cons, hfa, hy], z, List.mem_cons_of_mem a hz, hfz⟩

theorem findSome?_eq_none_of_all {α β : Type} (l : List α) (f : α → Option β)
    (h : ∀ x ∈ l, f x = none) : l.findSome? f = none := by
  induction l with
  | nil => rfl
  | cons a t ih =>
    rw [List.findSome?_cons, h a (List.mem_cons_self a t)]
    exact ih (fun x hx => h x (List.mem_cons_of_mem a hx))

theorem find?_of_mem_sat {α : Type} (l : List α) (p : α → Bool) (x : α)
    (hx : x ∈ l) (hpx : p x = true) :
    ∃ y, l.find? p = some y ∧ y ∈ l ∧ p y = true := by
  induction l with
  | nil => cases hx
  | cons a t ih =>
    cases hpa : p a with
    | true =>
        exact ⟨a, by rw [List.find?_cons, hpa], List.mem_cons_self a t, hpa⟩
    | false =>
        rcases List.mem_cons.mp hx with hxa | hxt
        · subst hxa; rw [hpa] at hpx; cases hpx
        · obtain ⟨y, hy, hym, hyp⟩ := ih hxt
          exact ⟨y, by rw [List.find?_cons, hpa, hy], List.mem_cons_of_mem a hym, hyp⟩

theorem find?_eq_none_of_all {α : Type} (l : List α) (p : α → Bool)
    (h : ∀ x ∈ l, p x = false) : l.find? p = none := by
  induction l with
  | nil => rfl
  | cons a t ih =>
    rw [List.find?_cons, h a (List.mem_cons_self a t)]
    exact ih (fun x hx => h x (List.mem_cons_of_mem a hx))

/-- Claim C4: `retrieve_btc_status_v2` answers WillReimburse for a block in
pending_reimbursements, otherwise Reimbursed for a block in
reimbursed_transactions, otherwise the first applicable of the v1 chain:
Pending, Signing or Sending (in flight), Submitted, Confirmed or AmountTooLow
(finalized), and Unknown when nothing applies; scheduling then completing a
deposit reimbursement moves the status from WillReimburse(task) to
Reimbursed with the given mint block index. -/
theorem retrieve_btc_status_v2_priority :
    ∀ (s : CkBtcMinterState) (b : Nat),
      (∀ task, mlookup s.pending_reimbursements b = some task →
        s.retrieve_btc_status_v2 b = RetrieveBtcStatusV2.WillReimburse task) ∧
      (mlookup s.pending_reimbursements b = none →
        ∀ dep, mlookup s.reimbursed_transactions b = some dep →
          s.retrieve_btc_status_v2 b = RetrieveBtcStatusV2.Reimbursed dep) ∧
      (mlookup s.pending_reimbursements b = none →
        mlookup s.reimbursed_transactions b = none →
        s.retrieve_btc_status_v2 b = (s.retrieve_btc_status b).toV2) ∧
      (s.has_pending_request b = true →
        s.retrieve_btc_status b = RetrieveBtcStatus.Pending) ∧
      (s.has_pending_request b = false →
        ∀ st, mlookup s.requests_in_flight b = some st →
          s.retrieve_btc_status b = (match st with
            | InFlightStatus.Signing => RetrieveBtcStatus.Signing
            | InFlightStatus.Sending txid => RetrieveBtcStatus.Sending txid)) ∧
      (s.has_pending_request b = false →
        mlookup s.requests_in_flight b = none →
        (∃ tx ∈ s.submitted_transactions,
          tx.requests.any (fun r => r.block_index == b) = true) →
        ∃ txid, s.retrieve_btc_status b = RetrieveBtcStatus.Submitted txid ∧
          ∃ tx ∈ s.submitted_transactions, tx.txid = txid ∧
            tx.requests.any (fun r => r.block_index == b) = true) ∧
      (s.has_pending_request b = false →
        mlookup s.requests_in_flight b = none →
        (∀ tx ∈ s.submitted_transactions,
          tx.requests.any (fun r => r.block_index == b) = false) →
        (∃ f ∈ s.finalized_requests, f.request.block_index = b) →
        ∃ f, f ∈ s.finalized_requests ∧ f.request.block_index = b ∧
          s.retrieve_btc_status b = (match f.state with
            | FinalizedStatus.AmountTooLow => RetrieveBtcStatus.AmountTooLow
            | FinalizedStatus.Confirmed txid => RetrieveBtcStatus.Confirmed txid)) ∧
      (s.has_pending_request b = false →
        mlookup s.requests_in_flight b = none →
        (∀ tx ∈ s.submitted_transactions,
          tx.requests.any (fun r => r.block_index == b) = false) →
        (∀ f ∈ s.finalized_requests, f.request.block_index ≠ b) →
        s.retrieve_btc_status b = RetrieveBtcStatus.Unknown) ∧
      (∀ task, (s.schedule_deposit_reimbursement b task).retrieve_btc_status_v2 b =
        RetrieveBtcStatusV2.WillReimburse task) ∧
      (∀ task mint_block_index,
        ((s.schedule_deposit_reimbursement b task).complete_reimbursement
            b mint_block_index).retrieve_btc_status_v2 b =
          RetrieveBtcStatusV2.Reimbursed
            (ReimbursedDeposit.mk task.account task.amount task.reason mint_block_index)) := by
  intro s b
  refine ⟨?_, ?_, ?_, ?_, ?_, ?_, ?_, ?_, ?_, ?_⟩
  · intro task h
    simp [CkBtcMinterState.retrieve_btc_status_v2, h]
  · intro h dep h2
    simp [CkBtcMinterState.retrieve_btc_status_v2, h, h2]
  · intro h h2
    simp [CkBtcMinterState.retrieve_btc_status_v2, h, h2]
  · intro hp
    unfold CkBtcMinterState.retrieve_btc_status
    rw [if_pos]
    exact hp
  · intro hp st hst
    unfold CkBtcMinterState.retrieve_btc_status
    rw [if_neg (by rw [← CkBtcMinterState.has_pending_request, hp]; exact Bool.false_ne_true),
      hst]
    cases st <;> rfl
  · intro hp hf hex
    obtain ⟨tx, htx, hany⟩ := hex
    obtain ⟨txid, hfind, z, hz, hfz⟩ := findSome?_of_mem_isSome s.submitted_transactions
      (fun tx => if tx.requests.any (fun r => r.block_index == b) then some tx.txid else none)
      tx htx (by simp [hany])
    refine ⟨txid, ?_, z, hz, ?_, ?_⟩
    · unfold CkBtcMinterState.retrieve_btc_status
      rw [if_neg (by rw [← CkBtcMinterState.has_pending_request, hp]; exact Bool.false_ne_true),
        hf, hfind]
    · by_cases hzany : z.requests.any (fun r => r.block_index == b) = true
      · rw [if_pos hzany] at hfz; exact (Option.some.injEq _ _).mp hfz
      · rw [if_neg hzany] at hfz; cases hfz
    · by_cases hzany : z.requests.any (fun r => r.block_index == b) = true
      · exact hzany
      · rw [if_neg hzany] at hfz; cases hfz
  · intro hp hf hsub hex
    obtain ⟨f0, hf0, hf0b⟩ := hex
    obtain ⟨f, hfind, hfm, hfp⟩ := find?_of_mem_sat s.finalized_requests
      (fun f => f.request.block_index == b) f0 hf0 (by simp [hf0b])
    obtain ⟨freq, fstate⟩ := f
    refine ⟨⟨freq, fstate⟩, hfm, by simpa using hfp, ?_⟩
    unfold CkBtcMinterState.retrieve_btc_status
    rw [if_neg (by rw [← CkBtcMinterState.has_pending_request, hp]; exact Bool.false_ne_true),
      hf]
    rw [findSome?_eq_none_of_all _ _ (fun tx htx => by rw [if_neg]; rw [hsub tx htx]; simp)]
    rw [hfind]
    cases fstate <;> rfl
  · intro hp hf hsub hfin
    unfold CkBtcMinterState.retrieve_btc_status
    rw [if_neg (by rw [← CkBtcMinterState.has_pending_request, hp]; exact Bool.false_ne_true),
      hf]
    rw [findSome?_eq_none_of_all _ _ (fun tx htx => by rw [if_neg]; rw [hsub tx htx]; simp)]
    rw [find?_eq_none_of_all _ _ (fun f hfm => by
      have := hfin f hfm
      simp [this])]
    rfl
  · intro task
    simp [CkBtcMinterState.retrieve_btc_status_v2,
      CkBtcMinterState.schedule_deposit_reimbursement, mlookup_minsert]
  · intro task mint_block_index
    simp [CkBtcMinterState.retrieve_btc_status_v2,
      CkBtcMinterState.schedule_deposit_reimbursement,
      CkBtcMinterState.complete_reimbursement, mlookup_minsert, mlookup_merase]

/-- The reimbursement task of the C4 scenario: account alice, amount 42,
reason CallFailed. -/
def wtask : ReimburseDepositTask :=
  { account := witness_account, amount := 42, reason := ReimbursementReason.CallFailed }

/-- A state with a pending reimbursement recorded under burn index 7. -/
def wreimb_state : CkBtcMinterState := { pending_reimbursements := [(7, wtask)] }

/-- Witness for C4: after scheduling a reimbursement for block 7 the status is
WillReimburse(task); after completion with mint block 8 it is Reimbursed with
mint_block_index 8. -/
theorem retrieve_btc_status_v2_priority_witness :
    mlookup (wreimb_state.pending_reimbursements) 7 = some wtask ∧
    wreimb_state.retrieve_btc_status_v2 7 = RetrieveBtcStatusV2.WillReimburse wtask ∧
    (({} : CkBtcMinterState).schedule_deposit_reimbursement 7 wtask).retrieve_btc_status_v2 7 =
      RetrieveBtcStatusV2.WillReimburse wtask ∧
    ((({} : CkBtcMinterState).schedule_deposit_reimbursement 7
        wtask).complete_reimbursement 7 8).retrieve_btc_status_v2 7 =
      RetrieveBtcStatusV2.Reimbursed
        (ReimbursedDeposit.mk wtask.account wtask.amount wtask.reason 8) := by
  refine ⟨rfl, ?_, ?_, ?_⟩
  · exact (retrieve_btc_status_v2_priority wreimb_state 7).1 wtask rfl
  · exact (retrieve_btc_status_v2_priority {} 7).2.2.2.2.2.2.2.2.1 wtask
  · exact (retrieve_btc_status_v2_priority {} 7).2.2.2.2.2.2.2.2.2 wtask 8

/-! ### Claim C3 -/

/-- The batch selection as the spec words it: scan the queue in order and take
each request whose amount, added to the amounts already taken, does not exceed
the available total, taking nothing further once the batch holds max_size
requests. -/
def batch_taken_spec (total max_size : Nat) :
    List RetrieveBtcRequest → Nat → Nat → List RetrieveBtcRequest
  | [], _, _ => []
  | r :: rest, taken_amount, taken_count =>
    if taken_amount + r.amount ≤ total ∧ taken_count < max_size then
      r :: batch_taken_spec total max_size rest (taken_amount + r.amount) (taken_count + 1)
    else
      batch_taken_spec total max_size rest taken_amount taken_count

/-- The requests left in the queue by the selection of `batch_taken_spec`, in
their original relative order. -/
def batch_left_spec (total max_size : Nat) :
    List RetrieveBtcRequest → Nat → Nat → List RetrieveBtcRequest
  | [], _, _ => []
  | r :: rest, taken_amount, taken_count =>
    if taken_amount + r.amount ≤ total ∧ taken_count < max_size then
      batch_left_spec total max_size rest (taken_amount + r.amount) (taken_count + 1)
    else
      r :: batch_left_spec total max_size rest taken_amount taken_count

theorem build_batch_go_spec (total max_size : Nat) :
    ∀ (l batch pending : List RetrieveBtcRequest) (tx_amount : Nat),
      build_batch_go total max_size l batch tx_amount pending =
        (batch ++ batch_taken_spec total max_size l tx_amount batch.length,
         pending ++ batch_left_spec total max_size l tx_amount batch.length) := by
  intro l
  induction l with
  | nil =>
      intro batch pending tx_amount
      simp [build_batch_go, batch_taken_spec, batch_left_spec]
  | cons r rest ih =>
      intro batch pending tx_amount
      by_cases hc : total < r.amount + tx_amount ∨ max_size ≤ batch.length
      · have hc2 : ¬(tx_amount + r.amount ≤ total ∧ batch.length < max_size) := by omega
        rw [build_batch_go, if_pos hc, ih, batch_taken_spec, batch_left_spec,
          if_neg hc2, if_neg hc2]
        simp
      · have hc2 : tx_amount + r.amount ≤ total ∧ batch.length < max_size := by omega
        rw [build_batch_go, if_neg hc, ih, batch_taken_spec, batch_left_spec,
          if_pos hc2, if_pos hc2]
        simp [Nat.add_comm tx_amount r.amount]

theorem batch_taken_spec_sublist (total max_size : Nat) :
    ∀ (l : List RetrieveBtcRequest) (a c : Nat),
      List.Sublist (batch_taken_spec total max_size l a c) l := by
  intro l
  induction l with
  | nil => intro a c; simp [batch_taken_spec]
  | cons r rest ih =>
      intro a c
      rw [batch_taken_spec]
      split
      · exact List.Sublist.cons₂ r (ih _ _)
      · exact List.Sublist.cons r (ih _ _)

theorem batch_left_spec_sublist (total max_size : Nat) :
    ∀ (l : List RetrieveBtcRequest) (a c : Nat),
      List.Sublist (batch_left_spec total max_size l a c) l := by
  intro l
  induction l with
  | nil => intro a c; simp [batch_left_spec]
  | cons r rest ih =>
      intro a c
      rw [batch_left_spec]
      split
      · exact List.Sublist.cons r (ih _ _)
      · exact List.Sublist.cons₂ r (ih _ _)

theorem batch_taken_spec_length (total max_size : Nat) :
    ∀ (l : List RetrieveBtcRequest) (a c : Nat),
      (batch_taken_spec total max_size l a c).length ≤ max_size - c := by
  intro l
  induction l with
  | nil => intro a c; simp [batch_taken_spec]
  | cons r rest ih =>
      intro a c
      rw [batch_taken_spec]
      split
      · rename_i hc
        have := ih (a + r.amount) (c + 1)
        simp only [List.length_cons]
        omega
      · exact ih _ _

theorem batch_taken_spec_sum (total max_size : Nat) :
    ∀ (l : List RetrieveBtcRequest) (a c : Nat), a ≤ total →
      a + ((batch_taken_spec total max_size l a c).map (fun r => r.amount)).sum ≤ total := by
  intro l
  induction l with
  | nil => intro a c ha; simp [batch_taken_spec, ha]
  | cons r rest ih =>
      intro a c ha
      rw [batch_taken_spec]
      split
      · rename_i hc
        have := ih (a + r.amount) (c + 1) hc.1
        simp only [List.map_cons, List.sum_cons]
        omega
      · exact ih a c ha

/-- The first request of the C3 example, amount 60000. -/
def c3_req1 : RetrieveBtcRequest :=
  { amount := 60000, address := 0, block_index := 11, received_at := 1,
    kyt_provider := none, reimbursement_account := none }

/-- The second request of the C3 example, amount 50000. -/
def c3_req2 : RetrieveBtcRequest :=
  { amount := 50000, address := 0, block_index := 12, received_at := 2,
    kyt_provider := none, reimbursement_account := none }

/-- The third request of the C3 example, amount 20000. -/
def c3_req3 : RetrieveBtcRequest :=
  { amount := 20000, address := 0, block_index := 13, received_at := 3,
    kyt_provider := none, reimbursement_account := none }

/-- The C3 example state: one available utxo worth 100000 and three pending
requests with amounts 60000, 50000 and 20000. -/
def c3_state : CkBtcMinterState :=
  { pending_retrieve_btc_requests := [c3_req1, c3_req2, c3_req3],
    available_utxos := [{ outpoint := { txid := 9, vout := 0 }, value := 100000, height := 1 }] }

/-- Claim C3: `build_batch` scans the pending queue in order, greedily taking
each request whose amount added to the amounts already taken stays within the
total available utxo value, stopping additions at max_size; the requests not
taken remain pending in their original relative order; the batch is a
subsequence of the queue, holds at most max_size requests, and its amount sum
never exceeds the available total.  On the concrete example with total 100000
and amounts [60000, 50000, 20000], build_batch 10 returns the requests with
amounts [60000, 20000] and the queue retains the 50000 request. -/
theorem build_batch_spec_correct :
    (∀ (s : CkBtcMinterState) (max_size : Nat),
      (s.build_batch max_size).1 =
        batch_taken_spec ((s.available_utxos.map (fun u => u.value)).sum) max_size
          s.pending_retrieve_btc_requests 0 0 ∧
      ((s.build_batch max_size).2).pending_retrieve_btc_requests =
        batch_left_spec ((s.available_utxos.map (fun u => u.value)).sum) max_size
          s.pending_retrieve_btc_requests 0 0 ∧
      List.Sublist ((s.build_batch max_size).2).pending_retrieve_btc_requests
        s.pending_retrieve_btc_requests ∧
      List.Sublist (s.build_batch max_size).1 s.pending_retrieve_btc_requests ∧
      (s.build_batch max_size).1.length ≤ max_size ∧
      ((s.build_batch max_size).1.map (fun r => r.amount)).sum ≤
        (s.available_utxos.map (fun u => u.value)).sum) ∧
    (c3_state.build_batch 10).1 = [c3_req1, c3_req3] ∧
    ((c3_state.build_batch 10).2).pending_retrieve_btc_requests = [c3_req2] := by
  refine ⟨?_, rfl, rfl⟩
  intro s max_size
  have hgo := build_batch_go_spec ((s.available_utxos.map (fun u => u.value)).sum) max_size
    s.pending_retrieve_btc_requests [] [] 0
  have h1 : (s.build_batch max_size).1 =
      batch_taken_spec ((s.available_utxos.map (fun u => u.value)).sum) max_size
        s.pending_retrieve_btc_requests 0 0 := by
    simp only [CkBtcMinterState.build_batch, hgo]
    simp
  have h2 : ((s.build_batch max_size).2).pending_retrieve_btc_requests =
      batch_left_spec ((s.available_utxos.map (fun u => u.value)).sum) max_size
        s.pending_retrieve_btc_requests 0 0 := by
    simp only [CkBtcMinterState.build_batch, hgo]
    simp
  refine ⟨h1, h2, ?_, ?_, ?_, ?_⟩
  · rw [h2]; exact batch_left_spec_sublist _ _ _ _ _
  · rw [h1]; exact batch_taken_spec_sublist _ _ _ _ _
  · rw [h1]
    have := batch_taken_spec_length ((s.available_utxos.map (fun u => u.value)).sum) max_size
      s.pending_retrieve_btc_requests 0 0
    omega
  · rw [h1]
    have := batch_taken_spec_sum ((s.available_utxos.map (fun u => u.value)).sum) max_size
      s.pending_retrieve_btc_requests 0 0 (Nat.zero_le _)
    omega

/-! ### Claim C7 -/

theorem mem_sinsert_self {A : Type} [DecidableEq A] (s : List A) (x : A) : x ∈ sinsert s x := by
  unfold sinsert
  split
  · assumption
  · exact List.mem_append_right _ (List.mem_singleton.mpr rfl)

theorem mem_sinsert_of_mem {A : Type} [DecidableEq A] {s : List A} {y : A} (x : A)
    (h : y ∈ s) : y ∈ sinsert s x := by
  unfold sinsert
  split
  · exact h
  · exact List.mem_append_left _ h

theorem mem_sinsert_iff {A : Type} [DecidableEq A] {s : List A} {x y : A} :
    y ∈ sinsert s x ↔ y ∈ s ∨ y = x := by
  unfold sinsert
  split
  · rename_i hx
    constructor
    · exact Or.inl
    · rintro (h | h)
      · exact h
      · subst h; exact hx
  · simp [List.mem_append]

/-- The three partitions of a `ProcessableUtxos` are pairwise disjoint. -/
def ProcessableUtxos.pairwise_disjoint (p : ProcessableUtxos) : Prop :=
  (∀ u ∈ p.new_utxos,
    u ∉ p.previously_ignored_utxos ∧ u ∉ p.previously_quarantined_utxos) ∧
  (∀ u ∈ p.previously_ignored_utxos, u ∉ p.previously_quarantined_utxos)

theorem insert_once_suspended_utxo_spec {p : ProcessableUtxos} {u : Utxo}
    {reason : SuspendedReason} {p₂ : ProcessableUtxos}
    (h : p.insert_once_suspended_utxo u reason = some p₂) :
    p₂.new_utxos = p.new_utxos ∧
    (∀ x ∈ p.previously_ignored_utxos, x ∈ p₂.previously_ignored_utxos) ∧
    (∀ x ∈ p.previously_quarantined_utxos, x ∈ p₂.previously_quarantined_utxos) ∧
    (reason = SuspendedReason.ValueTooSmall → u ∈ p₂.previously_ignored_utxos) ∧
    (reason = SuspendedReason.Quarantined → u ∈ p₂.previously_quarantined_utxos) ∧
    (p.pairwise_disjoint → p₂.pairwise_disjoint) := by
  unfold ProcessableUtxos.insert_once_suspended_utxo at h
  split at h
  · rename_i hfresh
    obtain ⟨hf1, hf2, hf3⟩ := hfresh
    cases reason with
    | ValueTooSmall =>
        injection h with h
        subst h
        refine ⟨rfl, ?_, ?_, ?_, ?_, ?_⟩
        · intro x hx; exact mem_sinsert_of_mem u hx
        · intro x hx; exact hx
        · intro _; exact mem_sinsert_self _ _
        · intro hcon; exact absurd hcon (by simp)
        · intro hd
          obtain ⟨hd1, hd2⟩ := hd
          constructor
          · intro x hx
            constructor
            · intro hmem
              rcases mem_sinsert_iff.mp hmem with hm | hm
              · exact (hd1 x hx).1 hm
              · subst hm; exact hf1 hx
            · exact (hd1 x hx).2
          · intro x hx
            rcases mem_sinsert_iff.mp hx with hm | hm
            · exact hd2 x hm
            · subst hm; exact hf2
    | Quarantined =>
        injection h with h
        subst h
        refine ⟨rfl, ?_, ?_, ?_, ?_, ?_⟩
        · intro x hx; exact hx
        · intro x hx; exact mem_sinsert_of_mem u hx
        · intro hcon; exact absurd hcon (by simp)
        · intro _; exact mem_sinsert_self _ _
        · intro hd
          obtain ⟨hd1, hd2⟩ := hd
          constructor
          · intro x hx
            constructor
            · exact (hd1 x hx).1
            · intro hmem
              rcases mem_sinsert_iff.mp hmem with hm | hm
              · exact (hd1 x hx).2 hm
              · subst hm; exact hf1 hx
          · intro x hx
            intro hmem
            rcases mem_sinsert_iff.mp hmem with hm | hm
            · exact hd2 x hx hm
            · subst hm; exact hf3 hx
  · cases h

theorem insert_once_new_utxo_spec {p : ProcessableUtxos} {u : Utxo} {p₂ : ProcessableUtxos}
    (h : p.insert_once_new_utxo u = some p₂) :
    (∀ x ∈ p.new_utxos, x ∈ p₂.new_utxos) ∧
    p₂.previously_ignored_utxos = p.previously_ignored_utxos ∧
    p₂.previously_quarantined_utxos = p.previously_quarantined_utxos ∧
    (p.pairwise_disjoint → p₂.pairwise_disjoint) := by
  unfold ProcessableUtxos.insert_once_new_utxo at h
  split at h
  · rename_i hfresh
    obtain ⟨hf1, hf2, hf3⟩ := hfresh
    injection h with h
    subst h
    refine ⟨fun x hx => mem_sinsert_of_mem u hx, rfl, rfl, ?_⟩
    intro hd
    obtain ⟨hd1, hd2⟩ := hd
    refine ⟨fun x hx => ?_, hd2⟩
    rcases mem_sinsert_iff.mp hx with hm | hm
    · exact hd1 x hm
    · subst hm; exact ⟨hf3, hf2⟩
  · cases h

/-- One classification step only grows the partitions and the suspended list,
and preserves their pairwise disjointness. -/
theorem processable_step_mono (s : CkBtcMinterState) (account : Account) (now : Nat)
    (st st₂ : ProcessableUtxos × List SuspendedUtxo) (u : Utxo)
    (h : processable_step s account now st u = some st₂) :
    (∀ x ∈ st.1.new_utxos, x ∈ st₂.1.new_utxos) ∧
    (∀ x ∈ st.1.previously_ignored_utxos, x ∈ st₂.1.previously_ignored_utxos) ∧
    (∀ x ∈ st.1.previously_quarantined_utxos, x ∈ st₂.1.previously_quarantined_utxos) ∧
    (∀ x ∈ st.2, x ∈ st₂.2) ∧
    (st.1.pairwise_disjoint → st₂.1.pairwise_disjoint) := by
  unfold processable_step at h
  rcases hcv : s.suspended_utxos.contains_utxo u account with ⟨oT, oR⟩
  rw [hcv] at h
  cases oT with
  | some t =>
    cases oR with
    | some reason =>
      simp only at h
      cases hd : Timestamp.checked_duration_since now t with
      | some elapsed =>
        rw [hd] at h
        simp only at h
        split at h
        · cases hins : st.1.insert_once_suspended_utxo u reason with
          | none => rw [hins] at h; cases h
          | some p₂ =>
            rw [hins] at h
            injection h with h
            subst h
            obtain ⟨hnew, hig, hq, _, _, hdisj⟩ := insert_once_suspended_utxo_spec hins
            exact ⟨fun x hx => hnew ▸ hx, hig, hq, fun x hx => hx, hdisj⟩
        · injection h with h
          subst h
          exact ⟨fun x hx => hx, fun x hx => hx, fun x hx => hx,
            fun x hx => List.mem_append_left _ hx, fun hd2 => hd2⟩
      | none =>
        rw [hd] at h
        simp only at h
        injection h with h
        subst h
        exact ⟨fun x hx => hx, fun x hx => hx, fun x hx => hx,
          fun x hx => List.mem_append_left _ hx, fun hd2 => hd2⟩
    | none =>
      simp only at h
      split at h
      · injection h with h
        subst h
        exact ⟨fun x hx => hx, fun x hx => hx, fun x hx => hx, fun x hx => hx,
          fun hd2 => hd2⟩
      · cases hins : st.1.insert_once_new_utxo u with
        | none => rw [hins] at h; cases h
        | some p₂ =>
          rw [hins] at h
          injection h with h
          subst h
          obtain ⟨hnew, hig, hq, hdisj⟩ := insert_once_new_utxo_spec hins
          exact ⟨hnew, fun x hx => hig ▸ hx, fun x hx => hq ▸ hx, fun x hx => hx, hdisj⟩
  | none =>
    cases oR with
    | some reason =>
      simp only at h
      cases hins : st.1.insert_once_suspended_utxo u reason with
      | none => rw [hins] at h; cases h
      | some p₂ =>
        rw [hins] at h
        injection h with h
        subst h
        obtain ⟨hnew, hig, hq, _, _, hdisj⟩ := insert_once_suspended_utxo_spec hins
        exact ⟨fun x hx => hnew ▸ hx, hig, hq, fun x hx => hx, hdisj⟩
    | none =>
      simp only at h
      split at h
      · injection h with h
        subst h
        exact ⟨fun x hx => hx, fun x hx => hx, fun x hx => hx, fun x hx => hx,
          fun hd2 => hd2⟩
      · cases hins : st.1.insert_once_new_utxo u with
        | none => rw [hins] at h; cases h
        | some p₂ =>
          rw [hins] at h
          injection h with h
          subst h
          obtain ⟨hnew, hig, hq, hdisj⟩ := insert_once_new_utxo_spec hins
          exact ⟨hnew, fun x hx => hig ▸ hx, fun x hx => hq ▸ hx, fun x hx => hx, hdisj⟩

/-- A step on a utxo suspended with a cached last-checked time: fresh enough
goes to the still-suspended report with the 24-hour retry, stale goes to the
matching partition. -/
theorem processable_step_suspended (s : CkBtcMinterState) (account : Account)
    (now : Nat) (st st₂ : ProcessableUtxos × List SuspendedUtxo) (u : Utxo)
    (t : Nat) (reason : SuspendedReason)
    (hc : s.suspended_utxos.contains_utxo u account = (some t, some reason))
    (h : processable_step s account now st u = some st₂) :
    (now < t + DAY →
      st₂.2 = st.2 ++
        [{ utxo := u, reason := reason,
           earliest_retry := Timestamp.saturating_add t DAY }] ∧ st₂.1 = st.1) ∧
    (t + DAY ≤ now →
      st₂.2 = st.2 ∧
      (reason = SuspendedReason.ValueTooSmall → u ∈ st₂.1.previously_ignored_utxos) ∧
      (reason = SuspendedReason.Quarantined → u ∈ st₂.1.previously_quarantined_utxos)) := by
  unfold processable_step at h
  rw [hc] at h
  simp only at h
  cases hd : Timestamp.checked_duration_since now t with
  | some elapsed =>
    rw [hd] at h
    simp only at h
    have ht : t ≤ now ∧ elapsed = now - t := by
      unfold Timestamp.checked_duration_since at hd
      split at hd
      · injection hd with hd2; exact ⟨by assumption, hd2.symm⟩
      · cases hd
    by_cases hday : DAY ≤ elapsed
    · rw [if_pos hday] at h
      cases hins : st.1.insert_once_suspended_utxo u reason with
      | none => rw [hins] at h; cases h
      | some p₂ =>
        rw [hins] at h
        injection h with h
        subst h
        obtain ⟨_, _, _, higu, hqu, _⟩ := insert_once_suspended_utxo_spec hins
        constructor
        · intro hlt; exfalso; omega
        · intro _; exact ⟨rfl, higu, hqu⟩
    · rw [if_neg hday] at h
      injection h with h
      subst h
      constructor
      · intro _; exact ⟨rfl, rfl⟩
      · intro hge; exfalso; omega
  | none =>
    rw [hd] at h
    simp only at h
    have ht : ¬t ≤ now := by
      unfold Timestamp.checked_duration_since at hd
      split at hd
      · cases hd
      · assumption
    injection h with h
    subst h
    constructor
    · intro _; exact ⟨rfl, rfl⟩
    · intro hge; exfalso; omega

/-- A step on a utxo suspended without a cached last-checked time goes to the
matching partition. -/
theorem processable_step_suspended_nocache (s : CkBtcMinterState) (account : Account)
    (now : Nat) (st st₂ : ProcessableUtxos × List SuspendedUtxo) (u : Utxo)
    (reason : SuspendedReason)
    (hc : s.suspended_utxos.contains_utxo u account = (none, some reason))
    (h : processable_step s account now st u = some st₂) :
    st₂.2 = st.2 ∧
    (reason = SuspendedReason.ValueTooSmall → u ∈ st₂.1.previously_ignored_utxos) ∧
    (reason = SuspendedReason.Quarantined → u ∈ st₂.1.previously_quarantined_utxos) := by
  unfold processable_step at h
  rw [hc] at h
  simp only at h
  cases hins : st.1.insert_once_suspended_utxo u reason with
  | none => rw [hins] at h; cases h
  | some p₂ =>
    rw [hins] at h
    injection h with h
    subst h
    obtain ⟨_, _, _, higu, hqu, _⟩ := insert_once_suspended_utxo_spec hins
    exact ⟨rfl, higu, hqu⟩

/-- Folding the classification step only grows the partitions and the
suspended list, and preserves pairwise disjointness. -/
theorem processable_fold_mono (s : CkBtcMinterState) (account : Account) (now : Nat) :
    ∀ (l : List Utxo) (st st₂ : ProcessableUtxos × List SuspendedUtxo),
      l.foldlM (processable_step s account now) st = some st₂ →
      (∀ x ∈ st.1.new_utxos, x ∈ st₂.1.new_utxos) ∧
      (∀ x ∈ st.1.previously_ignored_utxos, x ∈ st₂.1.previously_ignored_utxos) ∧
      (∀ x ∈ st.1.previously_quarantined_utxos, x ∈ st₂.1.previously_quarantined_utxos) ∧
      (∀ x ∈ st.2, x ∈ st₂.2) ∧
      (st.1.pairwise_disjoint → st₂.1.pairwise_disjoint) := by
  intro l
  induction l with
  | nil =>
      intro st st₂ h
      injection h with h
      subst h
      exact ⟨fun x hx => hx, fun x hx => hx, fun x hx => hx, fun x hx => hx, fun hd => hd⟩
  | cons a rest ih =>
      intro st st₂ h
      rw [List.foldlM_cons] at h
      cases hstep : processable_step s account now st a with
      | none => rw [hstep] at h; cases h
      | some st₁ =>
          rw [hstep] at h
          simp only [Option.bind_eq_bind, Option.some_bind] at h
          obtain ⟨m1, m2, m3, m4, m5⟩ :=
            processable_step_mono s account now st st₁ a hstep
          obtain ⟨n1, n2, n3, n4, n5⟩ := ih st₁ st₂ h
          exact ⟨fun x hx => n1 x (m1 x hx), fun x hx => n2 x (m2 x hx),
            fun x hx => n3 x (m3 x hx), fun x hx => n4 x (m4 x hx),
            fun hd => n5 (m5 hd)⟩

/-- Classification of every suspended utxo in the scanned list, for an
arbitrary starting accumulator. -/
theorem processable_fold_spec (s : CkBtcMinterState) (account : Account) (now : Nat) :
    ∀ (l : List Utxo) (st st₂ : ProcessableUtxos × List SuspendedUtxo),
      l.foldlM (processable_step s account now) st = some st₂ →
      ∀ u ∈ l,
        (∀ t reason, s.suspended_utxos.contains_utxo u account = (some t, some reason) →
          (now < t + DAY →
            SuspendedUtxo.mk u reason (Timestamp.saturating_add t DAY) ∈ st₂.2) ∧
          (t + DAY ≤ now →
            (reason = SuspendedReason.ValueTooSmall → u ∈ st₂.1.previously_ignored_utxos) ∧
            (reason = SuspendedReason.Quarantined →
              u ∈ st₂.1.previously_quarantined_utxos))) ∧
        (∀ reason, s.suspended_utxos.contains_utxo u account = (none, some reason) →
          (reason = SuspendedReason.ValueTooSmall → u ∈ st₂.1.previously_ignored_utxos) ∧
          (reason = SuspendedReason.Quarantined →
            u ∈ st₂.1.previously_quarantined_utxos)) := by
  intro l
  induction l with
  | nil => intro st st₂ h u hu; cases hu
  | cons a rest ih =>
      intro st st₂ h u hu
      rw [List.foldlM_cons] at h
      cases hstep : processable_step s account now st a with
      | none => rw [hstep] at h; cases h
      | some st₁ =>
          rw [hstep] at h
          simp only [Option.bind_eq_bind, Option.some_bind] at h
          obtain ⟨n1, n2, n3, n4, n5⟩ := processable_fold_mono s account now rest st₁ st₂ h
          rcases List.mem_cons.mp hu with hua | hur
          · subst hua
            constructor
            · intro t reason hc
              obtain ⟨hfresh, hstale⟩ :=
                processable_step_suspended s account now st st₁ u t reason hc hstep
              constructor
              · intro hlt
                obtain ⟨he, _⟩ := hfresh hlt
                exact n4 _ (he ▸ List.mem_append_right _ (List.mem_singleton.mpr rfl))
              · intro hge
                obtain ⟨_, hig, hq⟩ := hstale hge
                exact ⟨fun hr => n2 u (hig hr), fun hr => n3 u (hq hr)⟩
            · intro reason hc
              obtain ⟨_, hig, hq⟩ :=
                processable_step_suspended_nocache s account now st st₁ u reason hc hstep
              exact ⟨fun hr => n2 u (hig hr), fun hr => n3 u (hq hr)⟩
          · exact ih st₁ st₂ h u hur

/-- Claim C7: `processable_utxos_for_account` reports a suspended utxo whose
cached last-checked time is less than 24 hours before now in the
still-suspended result with earliest_retry = last_checked + 24 h (saturating
u64 nanoseconds), and puts a suspended utxo whose last-checked time is absent
or at least 24 hours old into the previously-ignored partition (reason
ValueTooSmall) or the previously-quarantined partition (reason Quarantined);
the three processable partitions are pairwise disjoint, and iterating the
processable result yields all new, then all previously-ignored, then all
previously-quarantined utxos. -/
theorem processable_utxos_for_account_spec :
    ∀ (s : CkBtcMinterState) (utxos : List Utxo) (account : Account) (now : Nat)
      (p : ProcessableUtxos) (susp : List SuspendedUtxo),
      s.processable_utxos_for_account utxos account now = some (p, susp) →
      (∀ u ∈ utxos,
        (∀ t reason, s.suspended_utxos.contains_utxo u account = (some t, some reason) →
          (now < t + DAY →
            SuspendedUtxo.mk u reason (Timestamp.saturating_add t DAY) ∈ susp) ∧
          (t + DAY ≤ now →
            (reason = SuspendedReason.ValueTooSmall → u ∈ p.previously_ignored_utxos) ∧
            (reason = SuspendedReason.Quarantined → u ∈ p.previously_quarantined_utxos))) ∧
        (∀ reason, s.suspended_utxos.contains_utxo u account = (none, some reason) →
          (reason = SuspendedReason.ValueTooSmall → u ∈ p.previously_ignored_utxos) ∧
          (reason = SuspendedReason.Quarantined → u ∈ p.previously_quarantined_utxos))) ∧
      (∀ u ∈ p.new_utxos,
        u ∉ p.previously_ignored_utxos ∧ u ∉ p.previously_quarantined_utxos) ∧
      (∀ u ∈ p.previously_ignored_utxos, u ∉ p.previously_quarantined_utxos) ∧
      p.iterList = p.new_utxos ++ p.previously_ignored_utxos ++
        p.previously_quarantined_utxos := by
  intro s utxos account now p susp h
  unfold CkBtcMinterState.processable_utxos_for_account at h
  refine ⟨?_, ?_, ?_, rfl⟩
  · intro u hu
    exact processable_fold_spec s account now utxos ({}, []) (p, susp) h u hu
  · have hd := (processable_fold_mono s account now utxos ({}, []) (p, susp) h).2.2.2.2
    have hpd : ProcessableUtxos.pairwise_disjoint {} := by
      unfold ProcessableUtxos.pairwise_disjoint
      constructor
      · intro u hu
        cases hu
      · intro u hu
        cases hu
    exact (hd hpd).1
  · have hd := (processable_fold_mono s account now utxos ({}, []) (p, susp) h).2.2.2.2
    have hpd : ProcessableUtxos.pairwise_disjoint {} := by
      unfold ProcessableUtxos.pairwise_disjoint
      constructor
      · intro u hu
        cases hu
      · intro u hu
        cases hu
    exact (hd hpd).2

/-- The C7 witness state: the witness utxo is suspended as Quarantined with
last-checked time 100. -/
def c7_state : CkBtcMinterState := { suspended_utxos := suspended_witness_registry }

/-- Witness for C7: scanning the single suspended utxo at time 50 (less than
24 hours after its last check) reports it still suspended with
earliest_retry = 100 + 24 h. -/
theorem processable_utxos_for_account_spec_witness :
    c7_state.processable_utxos_for_account [witness_utxo] witness_account 50 =
      some ({}, [SuspendedUtxo.mk witness_utxo SuspendedReason.Quarantined
        (Timestamp.saturating_add 100 DAY)]) ∧
    c7_state.suspended_utxos.contains_utxo witness_utxo witness_account =
      (some 100, some SuspendedReason.Quarantined) ∧
    (50 < 100 + DAY) ∧
    SuspendedUtxo.mk witness_utxo SuspendedReason.Quarantined
      (Timestamp.saturating_add 100 DAY) ∈
      [SuspendedUtxo.mk witness_utxo SuspendedReason.Quarantined
        (Timestamp.saturating_add 100 DAY)] := by
  have hres : c7_state.processable_utxos_for_account [witness_utxo] witness_account 50 =
      some ({}, [SuspendedUtxo.mk witness_utxo SuspendedReason.Quarantined
        (Timestamp.saturating_add 100 DAY)]) := by decide
  refine ⟨hres, rfl, by decide, ?_⟩
  exact (((processable_utxos_for_account_spec c7_state [witness_utxo] witness_account 50
    _ _ hres).1 witness_utxo (List.mem_singleton.mpr rfl)).1 100
    SuspendedReason.Quarantined rfl).1 (by decide)

/-! ### Claim C1: list bookkeeping lemmas -/

theorem sum_map_set {α : Type} (f : α → Nat) :
    ∀ (l : List α) (i : Nat) (x y : α), l[i]? = some y →
      ((l.set i x).map f).sum + f y = (l.map f).sum + f x := by
  intro l
  induction l with
  | nil => intro i x y h; simp at h
  | cons a t ih =>
      intro i x y h
      cases i with
      | zero =>
          simp only [List.getElem?_cons_zero] at h
          injection h with h
          subst h
          simp [List.set]
          omega
      | succ n =>
          simp only [List.getElem?_cons_succ] at h
          simp only [List.set, List.map_cons, List.sum_cons]
          have := ih n x y h
          omega

theorem sum_map_dropLast {α : Type} (f : α → Nat) :
    ∀ (l : List α) (y : α), l.getLast? = some y →
      ((l.dropLast).map f).sum + f y = (l.map f).sum := by
  intro l
  induction l with
  | nil => intro y h; simp at h
  | cons a t ih =>
      intro y h
      cases t with
      | nil =>
          simp only [List.getLast?_singleton] at h
          injection h with h
          subst h
          simp
      | cons b t2 =>
          have h2 : (b :: t2).getLast? = some y := by
            rw [← h]
            rfl
          have ih2 := ih y h2
          simp only [List.dropLast_cons₂, List.map_cons, List.sum_cons] at ih2 ⊢
          omega

theorem getLast?_set_self {α : Type} (l : List α) (i : Nat) (z : α) (hi : i < l.length)
    (hl : l.getLast? = some z) : (l.set i z).getLast? = some z := by
  rw [List.getLast?_eq_getElem?] at hl ⊢
  rw [List.length_set]
  by_cases hil : i = l.length - 1
  · subst hil
    rw [List.getElem?_set_self (by omega)]
  · rw [List.getElem?_set_ne hil]
    exact hl

theorem sum_map_swapRemove {α : Type} (f : α → Nat) (l : List α) (i : Nat) (y : α)
    (h : l[i]? = some y) :
    ((swapRemove l i).map f).sum + f y = (l.map f).sum := by
  have hi : i < l.length := (List.getElem?_eq_some.mp h).1
  cases hl : l.getLast? with
  | none =>
      rw [List.getLast?_eq_none_iff] at hl
      subst hl
      simp at h
  | some z =>
      simp only [swapRemove, hl]
      have h1 := sum_map_set f l i z y h
      have h2 := sum_map_dropLast f (l.set i z) z (getLast?_set_self l i z hi hl)
      omega

theorem occTxs_swapRemove (b : Nat) (l : List SubmittedBtcTransaction) (i : Nat)
    (y : SubmittedBtcTransaction) (h : l[i]? = some y) :
    occTxs (swapRemove l i) b + occReqs y.requests b = occTxs l b := by
  unfold occTxs
  exact sum_map_swapRemove (fun tx => occReqs tx.requests b) l i y h

theorem occTxs_set (b : Nat) (l : List SubmittedBtcTransaction) (i : Nat)
    (tx y : SubmittedBtcTransaction) (h : l[i]? = some y) :
    occTxs (l.set i tx) b + occReqs y.requests b = occTxs l b + occReqs tx.requests b := by
  unfold occTxs
  exact sum_map_set (fun tx => occReqs tx.requests b) l i tx y h

theorem findIdx?_getElem {α : Type} (p : α → Bool) :
    ∀ (l : List α) (i j : Nat), l.findIdx? p j = some i →
      j ≤ i ∧ ∀ x, l[i - j]? = some x → p x = true := by
  intro l
  induction l with
  | nil => intro i j h; simp [List.findIdx?] at h
  | cons a t ih =>
      intro i j h
      rw [List.findIdx?_cons] at h
      by_cases hpa : p a = true
      · rw [if_pos hpa] at h
        injection h with h
        subst h
        refine ⟨Nat.le_refl _, ?_⟩
        intro x hx
        simp only [Nat.sub_self, List.getElem?_cons_zero] at hx
        injection hx with hx
        subst hx
        exact hpa
      · rw [if_neg hpa] at h
        obtain ⟨hle, hx⟩ := ih i (j + 1) h
        refine ⟨by omega, ?_⟩
        intro x hget
        have hij : i - j = (i - (j + 1)) + 1 := by omega
        rw [hij, List.getElem?_cons_succ] at hget
        exact hx x hget

/-- The behavior of `extract_tx`: the extracted transaction carries the looked
up txid, the remainder is the multiset complement, and both come from the
original list. -/
theorem extract_tx_spec {l : List SubmittedBtcTransaction} {txid : Txid}
    {tx : SubmittedBtcTransaction} {rest : List SubmittedBtcTransaction}
    (h : extract_tx l txid = some (tx, rest)) :
    tx.txid = txid ∧ tx ∈ l ∧ (∀ u ∈ rest, u ∈ l) ∧
    (∀ b, occTxs rest b + occReqs tx.requests b = occTxs l b) := by
  unfold extract_tx at h
  cases hidx : l.findIdx? (fun t => t.txid == txid) with
  | none => rw [hidx] at h; cases h
  | some pos =>
      simp only [hidx] at h
      cases hget : l[pos]? with
      | none => simp only [hget] at h; cases h
      | some tx0 =>
          simp only [hget] at h
          injection h with h
          injection h with h1 h2
          subst h1
          subst h2
          have hp := (findIdx?_getElem _ l pos 0 hidx).2 tx0 (by simpa using hget)
          refine ⟨by simpa using hp, List.getElem?_mem hget, ?_, ?_⟩
          · intro u hu
            cases hl : l.getLast? with
            | none =>
                rw [List.getLast?_eq_none_iff] at hl
                subst hl
                simp at hget
            | some z =>
                unfold swapRemove at hu
                rw [hl] at hu
                have hz : z ∈ l := by
                  rw [List.getLast?_eq_getElem?] at hl
                  exact List.getElem?_mem hl
                have := (List.dropLast_sublist _).mem hu
                rcases List.mem_or_eq_of_mem_set this with hm | hm
                · exact hm
                · subst hm; exact hz
          · intro b
            exact occTxs_swapRemove b l pos tx0 hget

/-- `forget_utxo` changes only the utxo bookkeeping fields; the whole
withdrawal pipeline is untouched. -/
theorem forget_utxo_frame (s : CkBtcMinterState) (u : Utxo) :
    (s.forget_utxo u).pending_retrieve_btc_requests = s.pending_retrieve_btc_requests ∧
    (s.forget_utxo u).requests_in_flight = s.requests_in_flight ∧
    (s.forget_utxo u).submitted_transactions = s.submitted_transactions ∧
    (s.forget_utxo u).stuck_transactions = s.stuck_transactions ∧
    (s.forget_utxo u).finalized_requests = s.finalized_requests ∧
    (s.forget_utxo u).replacement_txid = s.replacement_txid ∧
    (s.forget_utxo u).rev_replacement_txid = s.rev_replacement_txid ∧
    (s.forget_utxo u).update_balance_accounts = s.update_balance_accounts := by
  unfold CkBtcMinterState.forget_utxo
  cases mlookup s.outpoint_account u.outpoint with
  | none => exact ⟨rfl, rfl, rfl, rfl, rfl, rfl, rfl, rfl⟩
  | some account =>
      simp only
      split <;> split <;> simp_all <;> split <;> simp_all

theorem foldl_forget_utxo_frame (us : List Utxo) :
    ∀ (s : CkBtcMinterState),
    ((us.foldl CkBtcMinterState.forget_utxo s).pending_retrieve_btc_requests =
      s.pending_retrieve_btc_requests) ∧
    ((us.foldl CkBtcMinterState.forget_utxo s).requests_in_flight = s.requests_in_flight) ∧
    ((us.foldl CkBtcMinterState.forget_utxo s).submitted_transactions =
      s.submitted_transactions) ∧
    ((us.foldl CkBtcMinterState.forget_utxo s).stuck_transactions = s.stuck_transactions) ∧
    ((us.foldl CkBtcMinterState.forget_utxo s).finalized_requests = s.finalized_requests) ∧
    ((us.foldl CkBtcMinterState.forget_utxo s).replacement_txid = s.replacement_txid) ∧
    ((us.foldl CkBtcMinterState.forget_utxo s).rev_replacement_txid =
      s.rev_replacement_txid) := by
  induction us with
  | nil => intro s; exact ⟨rfl, rfl, rfl, rfl, rfl, rfl, rfl⟩
  | cons u rest ih =>
      intro s
      obtain ⟨i1, i2, i3, i4, i5, i6, i7⟩ := ih (s.forget_utxo u)
      obtain ⟨f1, f2, f3, f4, f5, f6, f7, _⟩ := forget_utxo_frame s u
      simp only [List.foldl_cons]
      exact ⟨i1.trans f1, i2.trans f2, i3.trans f3, i4.trans f4, i5.trans f5,
        i6.trans f6, i7.trans f7⟩

/-- Finalizing a request list rewrites only the finalized queue, folding the
FIFO push over it; the per-request assertion holds because none of the
requests is pending. -/
theorem foldlM_push_finalized (txid : Txid) :
    ∀ (reqs : List RetrieveBtcRequest) (s : CkBtcMinterState),
      (∀ r ∈ reqs, s.has_pending_request r.block_index = false) →
      reqs.foldlM (fun st request =>
        CkBtcMinterState.push_finalized_request st
          { request := request, state := FinalizedStatus.Confirmed txid }) s =
      some { s with finalized_requests :=
        ((reqs.map (fun request =>
          ({ request := request, state := FinalizedStatus.Confirmed txid } :
            FinalizedBtcRetrieval))).foldl push_finalized_core s.finalized_requests) } := by
  intro reqs
  induction reqs with
  | nil =>
      intro s hp
      simp only [List.foldlM_nil, List.map_nil, List.foldl_nil]
      rfl
  | cons r rest ih =>
      intro s hp
      rw [List.foldlM_cons]
      have hr : s.has_pending_request r.block_index = false :=
        hp r (List.mem_cons_self r rest)
      have hpush : CkBtcMinterState.push_finalized_request s
          { request := r, state := FinalizedStatus.Confirmed txid } =
          some { s with finalized_requests := (push_finalized_core s.finalized_requests
            { request := r, state := FinalizedStatus.Confirmed txid }) } := by
        unfold CkBtcMinterState.push_finalized_request
        rw [hr]
        simp
      rw [hpush]
      simp only [Option.bind_eq_bind, Option.some_bind]
      rw [ih ({ s with finalized_requests := (push_finalized_core s.finalized_requests
        { request := r, state := FinalizedStatus.Confirmed txid }) })
        (fun q hq => hp q (List.mem_cons_of_mem r hq))]
      simp

/-- The FIFO push fold equals an append followed by dropping the overflow from
the front, as long as the queue starts within its bound. -/
theorem foldl_push_core_drop :
    ∀ (rs : List FinalizedBtcRetrieval) (q : List FinalizedBtcRetrieval),
      q.length ≤ MAX_FINALIZED_REQUESTS →
      rs.foldl push_finalized_core q =
        (q ++ rs).drop (q.length + rs.length - MAX_FINALIZED_REQUESTS) := by
  intro rs
  induction rs with
  | nil =>
      intro q hq
      have hz : q.length + ([] : List FinalizedBtcRetrieval).length -
          MAX_FINALIZED_REQUESTS = 0 := by
        simp only [List.length_nil]
        omega
      rw [hz]
      simp
  | cons r rest ih =>
      intro q hq
      rw [List.foldl_cons]
      by_cases hfull : MAX_FINALIZED_REQUESTS ≤ q.length
      · have hlen : q.length = MAX_FINALIZED_REQUESTS := Nat.le_antisymm hq hfull
        cases q with
        | nil => simp [MAX_FINALIZED_REQUESTS] at hlen
        | cons a qt =>
            have hcore : push_finalized_core (a :: qt) r = qt ++ [r] := by
              unfold push_finalized_core
              rw [if_pos hfull]
              rfl
            rw [hcore, ih (qt ++ [r]) (by simp at hlen ⊢; omega)]
            have harr : (qt ++ [r]) ++ rest = qt ++ r :: rest := by simp
            rw [harr]
            have hidx : (qt ++ [r]).length + rest.length - MAX_FINALIZED_REQUESTS =
                rest.length := by
              simp at hlen ⊢
              omega
            have hidx2 : (a :: qt).length + (r :: rest).length - MAX_FINALIZED_REQUESTS =
                rest.length + 1 := by
              simp at hlen ⊢
              omega
            rw [hidx, hidx2]
            rfl
      · have hcore : push_finalized_core q r = q ++ [r] := by
          unfold push_finalized_core
          rw [if_neg hfull]
        rw [hcore, ih (q ++ [r]) (by simp; omega)]
        have harr : (q ++ [r]) ++ rest = q ++ r :: rest := by simp
        rw [harr]
        have hidx : (q ++ [r]).length + rest.length =
            q.length + (r :: rest).length := by
          simp
          omega
        rw [hidx]

/-- The values of a map, as a list. -/
def mvalues {K V : Type} (m : List (K × V)) : List V := m.map Prod.snd

theorem mlookup_mem_values {K V : Type} [DecidableEq K] :
    ∀ (m : List (K × V)) (k : K) (v : V), mlookup m k = some v → v ∈ mvalues m := by
  intro m
  induction m with
  | nil => intro k v h; simp [mlookup] at h
  | cons hd tl ih =>
      obtain ⟨a, b⟩ := hd
      intro k v h
      unfold mlookup at h
      split at h
      · injection h with h
        subst h
        exact List.mem_cons_self _ _
      · exact List.mem_cons_of_mem _ (ih k v h)

theorem mvalues_merase_subset {K V : Type} [DecidableEq K] (m : List (K × V)) (k : K) :
    ∀ x ∈ mvalues (merase m k), x ∈ mvalues m := by
  intro x hx
  unfold mvalues at hx ⊢
  obtain ⟨p, hp, hpx⟩ := List.mem_map.mp hx
  exact List.mem_map.mpr ⟨p, List.mem_of_mem_filter hp, hpx⟩

theorem cleanup_collect_first_props :
    ∀ (n : Nat) (rep rev : List (Txid × Txid)) (t : Txid) (acc : List Txid),
      rep.length ≤ n →
      (∀ x ∈ (cleanup_collect_first rep rev t acc).2.2, x ∈ acc ∨ x ∈ mvalues rep) ∧
      (∀ x ∈ mvalues (cleanup_collect_first rep rev t acc).2.1, x ∈ mvalues rev) := by
  intro n
  induction n with
  | zero =>
      intro rep rev t acc hlen
      have hrep : rep = [] := List.length_eq_zero.mp (Nat.le_zero.mp hlen)
      subst hrep
      rw [cleanup_collect_first]
      exact ⟨fun x hx => Or.inl hx, fun x hx => hx⟩
  | succ n ih =>
      intro rep rev t acc hlen
      rw [cleanup_collect_first]
      cases hml : mlookup rep t with
      | none => exact ⟨fun x hx => Or.inl hx, fun x hx => hx⟩
      | some f =>
          have hlt : (merase rep t).length < rep.length := merase_length_lt hml
          obtain ⟨h1, h2⟩ := ih (merase rep t) (merase rev f) f (acc ++ [f]) (by omega)
          constructor
          · intro x hx
            rcases h1 x hx with hm | hm
            · rcases List.mem_append.mp hm with hm2 | hm2
              · exact Or.inl hm2
              · have hxf : x = f := List.mem_singleton.mp hm2
                subst hxf
                exact Or.inr (mlookup_mem_values rep t x hml)
            · exact Or.inr (mvalues_merase_subset rep t x hm)
          · intro x hx
            exact mvalues_merase_subset rev f x (h2 x hx)

theorem cleanup_collect_second_props :
    ∀ (n : Nat) (rev : List (Txid × Txid)) (t : Txid) (acc : List Txid),
      rev.length ≤ n →
      ∀ x ∈ (cleanup_collect_second rev t acc).2, x ∈ acc ∨ x ∈ mvalues rev := by
  intro n
  induction n with
  | zero =>
      intro rev t acc hlen
      have hrev : rev = [] := List.length_eq_zero.mp (Nat.le_zero.mp hlen)
      subst hrev
      rw [cleanup_collect_second]
      exact fun x hx => Or.inl hx
  | succ n ih =>
      intro rev t acc hlen
      rw [cleanup_collect_second]
      cases hml : mlookup rev t with
      | none => exact fun x hx => Or.inl hx
      | some f =>
          have hlt : (merase rev t).length < rev.length := merase_length_lt hml
          intro x hx
          rcases ih (merase rev t) f (acc ++ [f]) (by omega) x hx with hm | hm
          · rcases List.mem_append.mp hm with hm2 | hm2
            · exact Or.inl hm2
            · have hxf : x = f := List.mem_singleton.mp hm2
              subst hxf
              exact Or.inr (mlookup_mem_values rev t x hml)
          · exact Or.inr (mvalues_merase_subset rev t x hm)

/-- Every transaction id deleted by the replacement-chain cleanup is a value
of one of the two replacement maps. -/
theorem cleanup_removed_subset (s : CkBtcMinterState) (txid : Txid) :
    ∀ x ∈ (cleanup_collect_second
        (cleanup_collect_first s.replacement_txid s.rev_replacement_txid txid []).2.1 txid
        (cleanup_collect_first s.replacement_txid s.rev_replacement_txid txid []).2.2).2,
      x ∈ mvalues s.replacement_txid ∨ x ∈ mvalues s.rev_replacement_txid := by
  intro x hx
  obtain ⟨h1, h2⟩ := cleanup_collect_first_props s.replacement_txid.length
    s.replacement_txid s.rev_replacement_txid txid [] (Nat.le_refl _)
  rcases cleanup_collect_second_props
      (cleanup_collect_first s.replacement_txid s.rev_replacement_txid txid []).2.1.length
      _ txid _ (Nat.le_refl _) x hx with hm | hm
  · rcases h1 x hm with hm2 | hm2
    · cases hm2
    · exact Or.inl hm2
  · exact Or.inr (h2 x hm)

/-- The replacement-chain cleanup never touches the pending queue, the
in-flight map or the finalized queue, and when no transaction id deleted by it
is the id of a kept transaction, the transaction vectors survive unchanged
apart from membership filtering. -/
theorem cleanup_frame (s : CkBtcMinterState) (txid : Txid) :
    (s.cleanup_tx_replacement_chain txid).pending_retrieve_btc_requests =
      s.pending_retrieve_btc_requests ∧
    (s.cleanup_tx_replacement_chain txid).requests_in_flight = s.requests_in_flight ∧
    (s.cleanup_tx_replacement_chain txid).finalized_requests = s.finalized_requests := by
  simp only [CkBtcMinterState.cleanup_tx_replacement_chain]
  split
  · exact ⟨rfl, rfl, rfl⟩
  · exact ⟨rfl, rfl, rfl⟩

/-- When every submitted transaction but possibly the confirmed one has an id
outside the values of both replacement maps, the cleanup leaves the submitted
vector unchanged. -/
theorem cleanup_submitted_of_safe (s : CkBtcMinterState) (txid : Txid)
    (hsafe : ∀ u ∈ s.submitted_transactions,
      u.txid ∉ mvalues s.replacement_txid ∧ u.txid ∉ mvalues s.rev_replacement_txid) :
    (s.cleanup_tx_replacement_chain txid).submitted_transactions =
      s.submitted_transactions := by
  simp only [CkBtcMinterState.cleanup_tx_replacement_chain]
  split
  · rfl
  · simp only
    apply List.filter_eq_self.mpr
    intro u hu
    have hrem := cleanup_removed_subset s txid
    rw [Bool.not_eq_eq_eq_not, Bool.not_true]
    by_contra hcon
    have hmem : u.txid ∈ (cleanup_collect_second
        (cleanup_collect_first s.replacement_txid s.rev_replacement_txid txid []).2.1 txid
        (cleanup_collect_first s.replacement_txid s.rev_replacement_txid txid []).2.2).2 := by
      have : (cleanup_collect_second
          (cleanup_collect_first s.replacement_txid s.rev_replacement_txid txid []).2.1 txid
          (cleanup_collect_first s.replacement_txid s.rev_replacement_txid txid
            []).2.2).2.contains u.txid = true := by
        cases hcc : (cleanup_collect_second
            (cleanup_collect_first s.replacement_txid s.rev_replacement_txid txid []).2.1 txid
            (cleanup_collect_first s.replacement_txid s.rev_replacement_txid txid
              []).2.2).2.contains u.txid
        · rw [hcc] at hcon
          simp at hcon
        · rfl
      exact List.elem_iff.mp this
    rcases hrem u.txid hmem with hv | hv
    · exact (hsafe u hu).1 hv
    · exact (hsafe u hu).2 hv

/-- The list of transaction ids erased by the replacement-chain cleanup, as a
function of the two replacement maps: the ids collected by the two chain
walks from the confirmed id. -/
def cleanup_removal_ids (rep rev : List (Txid × Txid)) (txid : Txid) : List Txid :=
  (cleanup_collect_second (cleanup_collect_first rep rev txid []).2.1 txid
    (cleanup_collect_first rep rev txid []).2.2).2

/-- Summing a map over a filter and over its complement recovers the sum over
the whole list. -/
theorem sum_map_filter_not {α : Type} (f : α → Nat) (p : α → Bool) (l : List α) :
    ((l.filter (fun a => !(p a))).map f).sum + ((l.filter p).map f).sum =
      (l.map f).sum := by
  induction l with
  | nil => rfl
  | cons a t ih =>
      cases hp : p a
      · simp only [List.filter_cons, hp, Bool.not_false, if_true,
          Bool.false_eq_true, if_false, List.map_cons, List.sum_cons]
        omega
      · simp only [List.filter_cons, hp, Bool.not_true, if_true,
          Bool.false_eq_true, if_false, List.map_cons, List.sum_cons]
        omega

/-- The occurrence count splits over a filter partition of a transaction
list. -/
theorem occTxs_filter_partition (b : Nat) (l : List SubmittedBtcTransaction)
    (p : SubmittedBtcTransaction → Bool) :
    occTxs (l.filter (fun u => !(p u))) b + occTxs (l.filter p) b = occTxs l b := by
  unfold occTxs
  exact sum_map_filter_not (fun tx => occReqs tx.requests b) p l

/-- Membership failure turns into a false `contains`. -/
theorem contains_eq_false_of_not_mem {l : List Txid} {x : Txid} (h : x ∉ l) :
    l.contains x = false := by
  cases hc : l.contains x
  · rfl
  · exact absurd (List.elem_iff.mp hc) h

/-- When no kept submitted transaction's id lies on the chain walks from the
confirmed id, the cleanup leaves the submitted vector unchanged. -/
theorem cleanup_submitted_of_not_removed (s : CkBtcMinterState) (txid : Txid)
    (h : ∀ u ∈ s.submitted_transactions,
      u.txid ∉ cleanup_removal_ids s.replacement_txid s.rev_replacement_txid txid) :
    (s.cleanup_tx_replacement_chain txid).submitted_transactions =
      s.submitted_transactions := by
  simp only [CkBtcMinterState.cleanup_tx_replacement_chain]
  split
  · rfl
  · simp only
    apply List.filter_eq_self.mpr
    intro u hu
    have hh := h u hu
    simp only [cleanup_removal_ids] at hh
    rw [Bool.not_eq_eq_eq_not, Bool.not_true]
    exact contains_eq_false_of_not_mem hh

/-- The cleanup removes from the submitted vector exactly the transactions
whose id lies on the chain walks from the confirmed id, as an occurrence-count
identity. -/
theorem cleanup_submitted_occ (s : CkBtcMinterState) (txid : Txid) (b : Nat) :
    occTxs (s.cleanup_tx_replacement_chain txid).submitted_transactions b +
      occTxs (s.submitted_transactions.filter (fun u =>
        (cleanup_removal_ids s.replacement_txid s.rev_replacement_txid
          txid).contains u.txid)) b =
      occTxs s.submitted_transactions b := by
  simp only [CkBtcMinterState.cleanup_tx_replacement_chain, cleanup_removal_ids]
  split
  · next hemp =>
      have hids : (cleanup_collect_second
          (cleanup_collect_first s.replacement_txid s.rev_replacement_txid txid []).2.1
          txid
          (cleanup_collect_first s.replacement_txid s.rev_replacement_txid txid
            []).2.2).2 = [] := by
        rwa [List.isEmpty_iff] at hemp
      rw [hids]
      simp [occTxs]
  · exact occTxs_filter_partition b s.submitted_transactions _

/-- Claim C1 (amended): the number of occurrences of a burn block index across
the four collections pending, in-flight, submitted and finalized is preserved
by replace_transaction whenever the replacement carries the same requests as
the replaced transaction (as the minter constructs replacements), and by
finalize_transaction, absent FIFO eviction of the finalized queue, in both of
its cases: finalizing a submitted transaction when no other submitted
transaction lies on the confirmed id's replacement chain, and finalizing a
stuck transaction when the submitted transactions on that chain carry exactly
the finalized transaction's request occurrences (the minter maintains both:
the chain through a submitted head consists of its stuck predecessors, and the
chain through a stuck transaction holds exactly its submitted head carrying
the same requests). stuck_transactions holds an additional copy of each
replaced transaction's requests, so the five-collection count is not
preserved. -/
theorem block_index_count_active_preserved :
    (∀ (s : CkBtcMinterState) (old_txid : Txid) (tx : SubmittedBtcTransaction)
      (s₂ : CkBtcMinterState),
      (∀ u ∈ s.submitted_transactions, u.txid = old_txid → u.requests = tx.requests) →
      s.replace_transaction old_txid tx = some s₂ →
      ∀ b, s₂.block_index_count_active b = s.block_index_count_active b) ∧
    (∀ (s : CkBtcMinterState) (txid : Txid) (tx : SubmittedBtcTransaction)
      (rest : List SubmittedBtcTransaction),
      extract_tx s.submitted_transactions txid = some (tx, rest) →
      (∀ r ∈ tx.requests, s.has_pending_request r.block_index = false) →
      s.finalized_requests.length + tx.requests.length ≤ MAX_FINALIZED_REQUESTS →
      (∀ u ∈ rest, u.txid ∉ cleanup_removal_ids s.replacement_txid
        s.rev_replacement_txid txid) →
      ∃ s₂, s.finalize_transaction txid = some s₂ ∧
        ∀ b, s₂.block_index_count_active b = s.block_index_count_active b) ∧
    (∀ (s : CkBtcMinterState) (txid : Txid) (tx : SubmittedBtcTransaction)
      (rest : List SubmittedBtcTransaction),
      extract_tx s.submitted_transactions txid = none →
      extract_tx s.stuck_transactions txid = some (tx, rest) →
      (∀ r ∈ tx.requests, s.has_pending_request r.block_index = false) →
      s.finalized_requests.length + tx.requests.length ≤ MAX_FINALIZED_REQUESTS →
      (∀ b, occTxs (s.submitted_transactions.filter (fun u =>
        (cleanup_removal_ids s.replacement_txid s.rev_replacement_txid
          txid).contains u.txid)) b = occReqs tx.requests b) →
      ∃ s₂, s.finalize_transaction txid = some s₂ ∧
        ∀ b, s₂.block_index_count_active b = s.block_index_count_active b) := by
  refine ⟨?_, ?_, ?_⟩
  · intro s old_txid tx s₂ hreq h b
    unfold CkBtcMinterState.replace_transaction at h
    split at h
    · cases h
    · split at h
      · cases h
      · split at h
        · cases h
        · cases hidx : s.submitted_transactions.findIdx? (fun t => t.txid == old_txid) with
          | none => rw [hidx] at h; cases h
          | some pos =>
              simp only [hidx] at h
              cases hget : s.submitted_transactions[pos]? with
              | none => simp only [hget] at h; cases h
              | some old_tx =>
                  simp only [hget] at h
                  injection h with h
                  subst h
                  have hp := (findIdx?_getElem _ s.submitted_transactions pos 0 hidx).2
                    old_tx (by simpa using hget)
                  have htxid : old_tx.txid = old_txid := by simpa using hp
                  have hmem : old_tx ∈ s.submitted_transactions := List.getElem?_mem hget
                  have hreqs : old_tx.requests = tx.requests := hreq old_tx hmem htxid
                  have hset := occTxs_set b s.submitted_transactions pos tx old_tx hget
                  rw [hreqs] at hset
                  unfold CkBtcMinterState.block_index_count_active
                    CkBtcMinterState.occPending CkBtcMinterState.occInFlight
                    CkBtcMinterState.occFinalized
                  dsimp only
                  omega
  · intro s txid tx rest hext hpend hlen hsafe
    obtain ⟨htxid, htxmem, hrestmem, hocc⟩ := extract_tx_spec hext
    obtain ⟨hf1, hf2, hf3, hf4, hf5, hf6, hf7⟩ :=
      foldl_forget_utxo_frame tx.used_utxos { s with submitted_transactions := rest }
    dsimp only at hf1 hf2 hf3 hf4 hf5 hf6 hf7
    set F := tx.used_utxos.foldl CkBtcMinterState.forget_utxo
      { s with submitted_transactions := rest } with hF
    have hp3 : ∀ r ∈ tx.requests,
        ({ F with finalized_requests_count :=
          (F.finalized_requests_count + tx.requests.length) }).has_pending_request
          r.block_index = false := by
      intro r hr
      have hpr := hpend r hr
      unfold CkBtcMinterState.has_pending_request at hpr ⊢
      dsimp only
      rw [hf1]
      exact hpr
    have hfold := foldlM_push_finalized txid tx.requests
      { F with finalized_requests_count :=
        (F.finalized_requests_count + tx.requests.length) } hp3
    have hfin : s.finalize_transaction txid =
        some (CkBtcMinterState.cleanup_tx_replacement_chain
          { F with
            finalized_requests_count := (F.finalized_requests_count + tx.requests.length),
            finalized_requests :=
              ((tx.requests.map (fun request =>
                ({ request := request, state := FinalizedStatus.Confirmed txid } :
                  FinalizedBtcRetrieval))).foldl push_finalized_core F.finalized_requests) }
          txid) := by
      simp only [CkBtcMinterState.finalize_transaction, hext,
        CkBtcMinterState.finalize_transaction_rest]
      rw [hfold]
    set S4 : CkBtcMinterState :=
      { F with
        finalized_requests_count := (F.finalized_requests_count + tx.requests.length),
        finalized_requests :=
          ((tx.requests.map (fun request =>
            ({ request := request, state := FinalizedStatus.Confirmed txid } :
              FinalizedBtcRetrieval))).foldl push_finalized_core F.finalized_requests) }
      with hS4
    have hsafe4 : ∀ u ∈ S4.submitted_transactions,
        u.txid ∉ cleanup_removal_ids S4.replacement_txid S4.rev_replacement_txid txid := by
      intro u hu
      have hu2 : u ∈ rest := by
        rw [hS4] at hu
        dsimp only at hu
        rw [hf3] at hu
        exact hu
      have h6 : S4.replacement_txid = s.replacement_txid := by
        rw [hS4]; dsimp only; exact hf6
      have h7 : S4.rev_replacement_txid = s.rev_replacement_txid := by
        rw [hS4]; dsimp only; exact hf7
      rw [h6, h7]
      exact hsafe u hu2
    refine ⟨_, hfin, ?_⟩
    intro b
    obtain ⟨hc1, hc2, hc3⟩ := cleanup_frame S4 txid
    have hcs := cleanup_submitted_of_not_removed S4 txid hsafe4
    unfold CkBtcMinterState.block_index_count_active CkBtcMinterState.occPending
      CkBtcMinterState.occInFlight CkBtcMinterState.occFinalized
    rw [hc1, hc2, hc3, hcs]
    have hs1 : S4.pending_retrieve_btc_requests = s.pending_retrieve_btc_requests := by
      rw [hS4]; dsimp only; exact hf1
    have hs2 : S4.requests_in_flight = s.requests_in_flight := by
      rw [hS4]; dsimp only; exact hf2
    have hs3 : S4.submitted_transactions = rest := by
      rw [hS4]; dsimp only; exact hf3
    have hs5 : S4.finalized_requests =
        s.finalized_requests ++ (tx.requests.map (fun request =>
          ({ request := request, state := FinalizedStatus.Confirmed txid } :
            FinalizedBtcRetrieval))) := by
      rw [hS4]
      dsimp only
      rw [foldl_push_core_drop _ _ (by rw [hf5]; omega), hf5]
      have hz : s.finalized_requests.length + (tx.requests.map (fun request =>
          ({ request := request, state := FinalizedStatus.Confirmed txid } :
            FinalizedBtcRetrieval))).length - MAX_FINALIZED_REQUESTS = 0 := by
        rw [List.length_map]
        omega
      rw [hz]
      simp
    rw [hs1, hs2, hs3, hs5]
    have hcadd : (s.finalized_requests ++ (tx.requests.map (fun request =>
        ({ request := request, state := FinalizedStatus.Confirmed txid } :
          FinalizedBtcRetrieval)))).countP (fun f => f.request.block_index == b) =
        s.finalized_requests.countP (fun f => f.request.block_index == b) +
          occReqs tx.requests b := by
      rw [List.countP_append]
      have hmapcount : (tx.requests.map (fun request =>
          ({ request := request, state := FinalizedStatus.Confirmed txid } :
            FinalizedBtcRetrieval))).countP (fun f => f.request.block_index == b) =
          occReqs tx.requests b := by
        rw [List.countP_map]
        rfl
      rw [hmapcount]
    rw [hcadd]
    have hocc2 := hocc b
    unfold occReqs at hocc2 ⊢
    omega
  · intro s txid tx rest hnone hext hpend hlen hchain
    obtain ⟨htxid, htxmem, hrestmem, hocc⟩ := extract_tx_spec hext
    obtain ⟨hf1, hf2, hf3, hf4, hf5, hf6, hf7⟩ :=
      foldl_forget_utxo_frame tx.used_utxos { s with stuck_transactions := rest }
    dsimp only at hf1 hf2 hf3 hf4 hf5 hf6 hf7
    set F := tx.used_utxos.foldl CkBtcMinterState.forget_utxo
      { s with stuck_transactions := rest } with hF
    have hp3 : ∀ r ∈ tx.requests,
        ({ F with finalized_requests_count :=
          (F.finalized_requests_count + tx.requests.length) }).has_pending_request
          r.block_index = false := by
      intro r hr
      have hpr := hpend r hr
      unfold CkBtcMinterState.has_pending_request at hpr ⊢
      dsimp only
      rw [hf1]
      exact hpr
    have hfold := foldlM_push_finalized txid tx.requests
      { F with finalized_requests_count :=
        (F.finalized_requests_count + tx.requests.length) } hp3
    have hfin : s.finalize_transaction txid =
        some (CkBtcMinterState.cleanup_tx_replacement_chain
          { F with
            finalized_requests_count := (F.finalized_requests_count + tx.requests.length),
            finalized_requests :=
              ((tx.requests.map (fun request =>
                ({ request := request, state := FinalizedStatus.Confirmed txid } :
                  FinalizedBtcRetrieval))).foldl push_finalized_core F.finalized_requests) }
          txid) := by
      simp only [CkBtcMinterState.finalize_transaction, hnone, hext,
        CkBtcMinterState.finalize_transaction_rest]
      rw [hfold]
    set S4 : CkBtcMinterState :=
      { F with
        finalized_requests_count := (F.finalized_requests_count + tx.requests.length),
        finalized_requests :=
          ((tx.requests.map (fun request =>
            ({ request := request, state := FinalizedStatus.Confirmed txid } :
              FinalizedBtcRetrieval))).foldl push_finalized_core F.finalized_requests) }
      with hS4
    refine ⟨_, hfin, ?_⟩
    intro b
    obtain ⟨hc1, hc2, hc3⟩ := cleanup_frame S4 txid
    have hsub := cleanup_submitted_occ S4 txid b
    have hs1 : S4.pending_retrieve_btc_requests = s.pending_retrieve_btc_requests := by
      rw [hS4]; dsimp only; exact hf1
    have hs2 : S4.requests_in_flight = s.requests_in_flight := by
      rw [hS4]; dsimp only; exact hf2
    have hs3 : S4.submitted_transactions = s.submitted_transactions := by
      rw [hS4]; dsimp only; exact hf3
    have hs6 : S4.replacement_txid = s.replacement_txid := by
      rw [hS4]; dsimp only; exact hf6
    have hs7 : S4.rev_replacement_txid = s.rev_replacement_txid := by
      rw [hS4]; dsimp only; exact hf7
    have hs5 : S4.finalized_requests =
        s.finalized_requests ++ (tx.requests.map (fun request =>
          ({ request := request, state := FinalizedStatus.Confirmed txid } :
            FinalizedBtcRetrieval))) := by
      rw [hS4]
      dsimp only
      rw [foldl_push_core_drop _ _ (by rw [hf5]; omega), hf5]
      have hz : s.finalized_requests.length + (tx.requests.map (fun request =>
          ({ request := request, state := FinalizedStatus.Confirmed txid } :
            FinalizedBtcRetrieval))).length - MAX_FINALIZED_REQUESTS = 0 := by
        rw [List.length_map]
        omega
      rw [hz]
      simp
    rw [hs3, hs6, hs7] at hsub
    rw [hchain b] at hsub
    unfold CkBtcMinterState.block_index_count_active CkBtcMinterState.occPending
      CkBtcMinterState.occInFlight CkBtcMinterState.occFinalized
    rw [hc1, hc2, hc3, hs1, hs2, hs5]
    have hcadd : (s.finalized_requests ++ (tx.requests.map (fun request =>
        ({ request := request, state := FinalizedStatus.Confirmed txid } :
          FinalizedBtcRetrieval)))).countP (fun f => f.request.block_index == b) =
        s.finalized_requests.countP (fun f => f.request.block_index == b) +
          occReqs tx.requests b := by
      rw [List.countP_append]
      have hmapcount : (tx.requests.map (fun request =>
          ({ request := request, state := FinalizedStatus.Confirmed txid } :
            FinalizedBtcRetrieval))).countP (fun f => f.request.block_index == b) =
          occReqs tx.requests b := by
        rw [List.countP_map]
        rfl
      rw [hmapcount]
    rw [hcadd]
    unfold occReqs at hsub ⊢
    omega

/-- The account of the C1 trace. -/
def c1_account : Account := { owner := 2, subaccount := none }

/-- The utxo funding the C1 trace. -/
def c1_utxo : Utxo := { outpoint := { txid := 100, vout := 0 }, value := 100000, height := 5 }

/-- The burn request of the C1 trace, block index 1. -/
def c1_req : RetrieveBtcRequest :=
  { amount := 50000, address := 3, block_index := 1, received_at := 10,
    kyt_provider := none, reimbursement_account := none }

/-- The original transaction serving the C1 request. -/
def c1_txA : SubmittedBtcTransaction :=
  { requests := [c1_req], txid := 500, used_utxos := [c1_utxo], submitted_at := 20,
    change_output := none, fee_per_vbyte := none }

/-- The replacement transaction of the C1 trace, serving the same request. -/
def c1_txB : SubmittedBtcTransaction :=
  { requests := [c1_req], txid := 501, used_utxos := [c1_utxo], submitted_at := 30,
    change_output := none, fee_per_vbyte := none }

/-- A state trace of the minter: add a utxo, enqueue the burn request, batch
it, mark it in flight, submit transaction A, then replace A by B. -/
def c1_trace : Option CkBtcMinterState :=
  ((CkBtcMinterState.add_utxos {} c1_account [c1_utxo]).push_back_pending_request c1_req).bind
    (fun s => (((s.build_batch 10).2).push_in_flight_request 1 InFlightStatus.Signing).bind
      (fun s => (s.push_submitted_transaction c1_txA).bind
        (fun s => s.replace_transaction 500 c1_txB)))

/-- Claim C1 counterexample: after replace_transaction, the reachable state of
the trace carries burn block index 1 twice across the five collections - once
in the submitted replacement and once in the stuck original - so the count is
not exactly 1 and replace_transaction does not preserve it. -/
theorem replace_transaction_duplicates_block_index :
    c1_trace.map (fun s => s.block_index_count 1) = some 2 ∧
    c1_trace.map (fun s => occTxs s.stuck_transactions 1) = some 1 ∧
    c1_trace.map (fun s => s.block_index_count_active 1) = some 1 := by
  refine ⟨?_, ?_, ?_⟩ <;> decide

/-- A state holding transaction A as the only submitted transaction. -/
def c1_repl_state : CkBtcMinterState := { submitted_transactions := [c1_txA] }

/-- A state after replacing transaction A (500) by B (501): B submitted, A
stuck, the replacement maps linking them. -/
def c1_stuck_state : CkBtcMinterState :=
  { submitted_transactions := [c1_txB],
    stuck_transactions := [c1_txA],
    replacement_txid := [(500, 501)],
    rev_replacement_txid := [(501, 500)] }

/-- The chain walks of the concrete stuck-finalize state: finalizing 500
erases exactly its replacement 501. -/
theorem c1_stuck_removal_ids :
    cleanup_removal_ids [(500, 501)] [(501, 500)] 500 = [501] := by
  have h1 : cleanup_collect_first [(500, 501)] [(501, 500)] 500 [] =
      ([], [], [501]) := by
    rw [cleanup_collect_first_eq_some [(500, 501)] [(501, 500)] 500 [] 501 rfl]
    rw [show merase [(500, 501)] 500 = [] from rfl]
    rw [show merase [(501, 500)] 501 = [] from rfl]
    rw [cleanup_collect_first_eq_none [] [] 501 ([] ++ [501]) rfl]
    rfl
  have h2 : cleanup_collect_second [] 500 [501] = ([], [501]) :=
    cleanup_collect_second_eq_none [] 500 [501] rfl
  unfold cleanup_removal_ids
  rw [h1]
  dsimp only
  rw [h2]

/-- Witness for the amended C1: replacing A by B (same requests) preserves the
four-collection count of block index 1; finalizing a submitted A preserves it
for every block index; and finalizing a stuck A whose replacement B is
submitted with the same requests preserves it for every block index. -/
theorem block_index_count_active_preserved_witness :
    (∀ u ∈ c1_repl_state.submitted_transactions, u.txid = 500 →
      u.requests = c1_txB.requests) ∧
    (∃ s₂, c1_repl_state.replace_transaction 500 c1_txB = some s₂ ∧
      s₂.block_index_count_active 1 = c1_repl_state.block_index_count_active 1) ∧
    (extract_tx c1_repl_state.submitted_transactions 500 = some (c1_txA, [])) ∧
    (∀ r ∈ c1_txA.requests, c1_repl_state.has_pending_request r.block_index = false) ∧
    (c1_repl_state.finalized_requests.length + c1_txA.requests.length ≤
      MAX_FINALIZED_REQUESTS) ∧
    (∃ s₂, c1_repl_state.finalize_transaction 500 = some s₂ ∧
      ∀ b, s₂.block_index_count_active b = c1_repl_state.block_index_count_active b) ∧
    (extract_tx c1_stuck_state.submitted_transactions 500 = none) ∧
    (extract_tx c1_stuck_state.stuck_transactions 500 = some (c1_txA, [])) ∧
    (∀ b, occTxs (c1_stuck_state.submitted_transactions.filter (fun u =>
      (cleanup_removal_ids c1_stuck_state.replacement_txid
        c1_stuck_state.rev_replacement_txid 500).contains u.txid)) b =
      occReqs c1_txA.requests b) ∧
    (∃ s₂, c1_stuck_state.finalize_transaction 500 = some s₂ ∧
      ∀ b, s₂.block_index_count_active b = c1_stuck_state.block_index_count_active b) := by
  have hchain : ∀ b, occTxs (c1_stuck_state.submitted_transactions.filter (fun u =>
      (cleanup_removal_ids c1_stuck_state.replacement_txid
        c1_stuck_state.rev_replacement_txid 500).contains u.txid)) b =
      occReqs c1_txA.requests b := by
    intro b
    rw [show (cleanup_removal_ids c1_stuck_state.replacement_txid
      c1_stuck_state.rev_replacement_txid 500) = [501] from c1_stuck_removal_ids]
    rfl
  refine ⟨by decide, ?_, rfl, by decide, by decide, ?_, by decide, rfl,
    hchain, ?_⟩
  · exact ⟨_, rfl, block_index_count_active_preserved.1 c1_repl_state 500 c1_txB _
      (by decide) rfl 1⟩
  · exact block_index_count_active_preserved.2.1 c1_repl_state 500 c1_txA [] rfl
      (by decide) (by decide) (fun u hu => by cases hu)
  · exact block_index_count_active_preserved.2.2 c1_stuck_state 500 c1_txA []
      (by decide) rfl (by decide) (by decide) hchain

/-! ### Claim C2 -/

/-- `forget_utxo` reads and writes only the four utxo bookkeeping fields, so
two states agreeing there keep agreeing. -/
theorem forget_utxo_congr (s t : CkBtcMinterState) (u : Utxo)
    (h1 : s.outpoint_account = t.outpoint_account)
    (h2 : s.utxos_state_addresses = t.utxos_state_addresses)
    (h3 : s.finalized_utxos = t.finalized_utxos)
    (h4 : s.update_balance_accounts = t.update_balance_accounts) :
    (s.forget_utxo u).outpoint_account = (t.forget_utxo u).outpoint_account ∧
    (s.forget_utxo u).utxos_state_addresses = (t.forget_utxo u).utxos_state_addresses ∧
    (s.forget_utxo u).finalized_utxos = (t.forget_utxo u).finalized_utxos ∧
    (s.forget_utxo u).update_balance_accounts =
      (t.forget_utxo u).update_balance_accounts := by
  unfold CkBtcMinterState.forget_utxo
  rw [h1]
  cases mlookup t.outpoint_account u.outpoint with
  | none => exact ⟨h1, h2, h3, h4⟩
  | some account =>
      simp only [h2, h3, h4]
      split <;> split <;> simp_all <;> split <;> simp_all

theorem foldl_forget_utxo_congr (us : List Utxo) :
    ∀ (s t : CkBtcMinterState),
      s.outpoint_account = t.outpoint_account →
      s.utxos_state_addresses = t.utxos_state_addresses →
      s.finalized_utxos = t.finalized_utxos →
      s.update_balance_accounts = t.update_balance_accounts →
      ((us.foldl CkBtcMinterState.forget_utxo s).outpoint_account =
        (us.foldl CkBtcMinterState.forget_utxo t).outpoint_account) ∧
      ((us.foldl CkBtcMinterState.forget_utxo s).utxos_state_addresses =
        (us.foldl CkBtcMinterState.forget_utxo t).utxos_state_addresses) ∧
      ((us.foldl CkBtcMinterState.forget_utxo s).finalized_utxos =
        (us.foldl CkBtcMinterState.forget_utxo t).finalized_utxos) := by
  induction us with
  | nil => intro s t h1 h2 h3 h4; exact ⟨h1, h2, h3⟩
  | cons u rest ih =>
      intro s t h1 h2 h3 h4
      obtain ⟨g1, g2, g3, g4⟩ := forget_utxo_congr s t u h1 h2 h3 h4
      simp only [List.foldl_cons]
      exact ih (s.forget_utxo u) (t.forget_utxo u) g1 g2 g3 g4

/-- Claim C2: for a replacement chain A to B to C built by two calls of
replace_transaction on a state whose only submitted transaction is A (and with
empty stuck list and replacement maps), finalize_transaction(C) empties the
submitted and stuck lists (removing A, B and C), leaves both replacement maps
without any edge, folds forget_utxo over the utxos used by C, and appends the
requests of C to the finalized queue as Confirmed(C), evicting from the front
exactly when the queue would exceed its bound of 100. -/
theorem finalize_rbf_chain_spec :
    ∀ (s₀ : CkBtcMinterState) (txA txB txC : SubmittedBtcTransaction) (A B C : Txid),
      txA.txid = A → txB.txid = B → txC.txid = C →
      A ≠ B → B ≠ C → A ≠ C →
      s₀.submitted_transactions = [txA] →
      s₀.stuck_transactions = [] →
      s₀.replacement_txid = [] →
      s₀.rev_replacement_txid = [] →
      (∀ r ∈ txB.requests, s₀.has_pending_request r.block_index = false) →
      (∀ r ∈ txC.requests, s₀.has_pending_request r.block_index = false) →
      s₀.finalized_requests.length ≤ MAX_FINALIZED_REQUESTS →
      ∃ s₁ s₂ s₃,
        s₀.replace_transaction A txB = some s₁ ∧
        s₁.replace_transaction B txC = some s₂ ∧
        s₂.finalize_transaction C = some s₃ ∧
        s₃.submitted_transactions = [] ∧
        s₃.stuck_transactions = [] ∧
        s₃.replacement_txid = [] ∧
        s₃.rev_replacement_txid = [] ∧
        s₃.finalized_requests =
          (s₀.finalized_requests ++ txC.requests.map (fun request =>
            ({ request := request, state := FinalizedStatus.Confirmed C } :
              FinalizedBtcRetrieval))).drop
            (s₀.finalized_requests.length + txC.requests.length -
              MAX_FINALIZED_REQUESTS) ∧
        s₃.outpoint_account =
          (txC.used_utxos.foldl CkBtcMinterState.forget_utxo s₀).outpoint_account ∧
        s₃.utxos_state_addresses =
          (txC.used_utxos.foldl CkBtcMinterState.forget_utxo s₀).utxos_state_addresses ∧
        s₃.finalized_utxos =
          (txC.used_utxos.foldl CkBtcMinterState.forget_utxo s₀).finalized_utxos := by
  intro s₀ txA txB txC A B C hA hB hC hAB hBC hAC hsub hstuck hrep hrev hpB hpC hlen
  have hBA : (B == A) = false := by simp [Ne.symm hAB]
  have hCB : (C == B) = false := by simp [Ne.symm hBC]
  have hanyB : txB.requests.any (fun req => s₀.has_pending_request req.block_index) = false := by
    rw [List.any_eq_false]
    intro r hr
    rw [hpB r hr]
    exact Bool.false_ne_true
  have hstep1 : s₀.replace_transaction A txB = some
      { s₀ with
        submitted_transactions := [txB],
        stuck_transactions := [txA],
        replacement_txid := [(A, B)],
        rev_replacement_txid := [(B, A)] } := by
    unfold CkBtcMinterState.replace_transaction
    rw [if_neg (by rw [hB]; exact hAB)]
    rw [hrep]
    rw [if_neg (by simp [mlookup])]
    rw [if_neg (by rw [hanyB]; exact Bool.false_ne_true)]
    rw [hsub]
    have hfind : ([txA].findIdx? (fun t => t.txid == A)) = some 0 := by
      rw [List.findIdx?_cons]
      simp [hA]
    simp only [hfind]
    simp only [List.getElem?_cons_zero]
    rw [hstuck, hrev, hB]
    rfl
  set S1 : CkBtcMinterState :=
    { s₀ with
      submitted_transactions := [txB],
      stuck_transactions := [txA],
      replacement_txid := [(A, B)],
      rev_replacement_txid := [(B, A)] } with hS1
  have hanyC : txC.requests.any (fun req => S1.has_pending_request req.block_index) = false := by
    rw [List.any_eq_false]
    intro r hr
    have := hpC r hr
    unfold CkBtcMinterState.has_pending_request at this ⊢
    rw [hS1]
    dsimp only
    rw [this]
    exact Bool.false_ne_true
  have hstep2 : S1.replace_transaction B txC = some
      { s₀ with
        submitted_transactions := [txC],
        stuck_transactions := [txA, txB],
        replacement_txid := [(A, B), (B, C)],
        rev_replacement_txid := [(B, A), (C, B)] } := by
    unfold CkBtcMinterState.replace_transaction
    rw [if_neg (by rw [hC]; exact hBC)]
    have hml : mlookup S1.replacement_txid B = none := by
      rw [hS1]
      dsimp only
      simp [mlookup, hAB]
    rw [hml]
    rw [if_neg (by simp)]
    rw [if_neg (by rw [hanyC]; exact Bool.false_ne_true)]
    have hsub1 : S1.submitted_transactions = [txB] := by rw [hS1]
    rw [hsub1]
    have hfind : ([txB].findIdx? (fun t => t.txid == B)) = some 0 := by
      rw [List.findIdx?_cons]
      simp [hB]
    simp only [hfind]
    simp only [List.getElem?_cons_zero]
    rw [hC]
    have hmins1 : minsert [(A, B)] B C = [(A, B), (B, C)] := by
      simp [minsert, hAB]
    have hmins2 : minsert [(B, A)] C B = [(B, A), (C, B)] := by
      simp [minsert, hBC]
    rw [hmins1, hmins2]
    rfl
  set S2 : CkBtcMinterState :=
    { s₀ with
      submitted_transactions := [txC],
      stuck_transactions := [txA, txB],
      replacement_txid := [(A, B), (B, C)],
      rev_replacement_txid := [(B, A), (C, B)] } with hS2
  -- extract C from the submitted vector of S2
  have hext : extract_tx S2.submitted_transactions C = some (txC, []) := by
    have hsub2 : S2.submitted_transactions = [txC] := by rw [hS2]
    rw [hsub2]
    unfold extract_tx
    have hfind : ([txC].findIdx? (fun t => t.txid == C)) = some 0 := by
      rw [List.findIdx?_cons]
      simp [hC]
    simp only [hfind]
    simp only [List.getElem?_cons_zero]
    rfl
  -- the forget fold inside finalize
  obtain ⟨hf1, hf2, hf3, hf4, hf5, hf6, hf7⟩ :=
    foldl_forget_utxo_frame txC.used_utxos { S2 with submitted_transactions := [] }
  dsimp only at hf1 hf2 hf3 hf4 hf5 hf6 hf7
  set F := txC.used_utxos.foldl CkBtcMinterState.forget_utxo
    { S2 with submitted_transactions := [] } with hF
  obtain ⟨hg1, hg2, hg3⟩ :=
    foldl_forget_utxo_congr txC.used_utxos { S2 with submitted_transactions := [] } s₀
      (by rw [hS2]) (by rw [hS2]) (by rw [hS2]) (by rw [hS2])
  have hp3 : ∀ r ∈ txC.requests,
      ({ F with finalized_requests_count :=
        (F.finalized_requests_count + txC.requests.length) }).has_pending_request
        r.block_index = false := by
    intro r hr
    have hpr := hpC r hr
    unfold CkBtcMinterState.has_pending_request at hpr ⊢
    dsimp only
    rw [hf1]
    have : S2.pending_retrieve_btc_requests = s₀.pending_retrieve_btc_requests := by
      rw [hS2]
    rw [this]
    exact hpr
  have hfold := foldlM_push_finalized C txC.requests
    { F with finalized_requests_count :=
      (F.finalized_requests_count + txC.requests.length) } hp3
  have hfin : S2.finalize_transaction C =
      some (CkBtcMinterState.cleanup_tx_replacement_chain
        { F with
          finalized_requests_count := (F.finalized_requests_count + txC.requests.length),
          finalized_requests :=
            ((txC.requests.map (fun request =>
              ({ request := request, state := FinalizedStatus.Confirmed C } :
                FinalizedBtcRetrieval))).foldl push_finalized_core F.finalized_requests) }
        C) := by
    simp only [CkBtcMinterState.finalize_transaction, hext,
      CkBtcMinterState.finalize_transaction_rest]
    rw [← hF]
    rw [hfold]
  set S4 : CkBtcMinterState :=
    { F with
      finalized_requests_count := (F.finalized_requests_count + txC.requests.length),
      finalized_requests :=
        ((txC.requests.map (fun request =>
          ({ request := request, state := FinalizedStatus.Confirmed C } :
            FinalizedBtcRetrieval))).foldl push_finalized_core F.finalized_requests) }
    with hS4
  -- the replacement-chain cleanup on the concrete maps
  have hS4rep : S4.replacement_txid = [(A, B), (B, C)] := by
    rw [hS4]
    dsimp only
    exact hf6
  have hS4rev : S4.rev_replacement_txid = [(B, A), (C, B)] := by
    rw [hS4]
    dsimp only
    exact hf7
  have hS4sub : S4.submitted_transactions = [] := by
    rw [hS4]
    dsimp only
    exact hf3
  have hS4stuck : S4.stuck_transactions = [txA, txB] := by
    rw [hS4]
    dsimp only
    exact hf4
  have hcc1 : cleanup_collect_first [(A, B), (B, C)] [(B, A), (C, B)] C [] =
      ([(A, B), (B, C)], [(B, A), (C, B)], []) := by
    have hml : mlookup [(A, B), (B, C)] C = none := by
      simp [mlookup, hAC, hBC]
    exact cleanup_collect_first_eq_none _ _ _ _ hml
  have hcc2 : cleanup_collect_second [(B, A), (C, B)] C [] = ([], [B, A]) := by
    have hml : mlookup [(B, A), (C, B)] C = some B := by
      simp [mlookup, hBC]
    have hmer : merase [(B, A), (C, B)] C = [(B, A)] := by
      simp [merase, List.filter, hBC]
    have hml2 : mlookup [(B, A)] B = some A := by
      simp [mlookup]
    have hmer2 : merase [(B, A)] B = [] := by
      simp [merase, List.filter]
    rw [cleanup_collect_second_eq_some _ _ _ B hml]
    rw [hmer]
    rw [cleanup_collect_second_eq_some _ _ _ A hml2]
    rw [hmer2]
    rw [cleanup_collect_second_eq_none _ _ _ (by simp [mlookup])]
    rfl
  have hrepfold : List.foldl merase [(A, B), (B, C)] [B, A] = [] := by
    simp only [List.foldl_cons, List.foldl_nil]
    have e1 : merase [(A, B), (B, C)] B = [(A, B)] := by
      simp [merase, List.filter, hAB]
    rw [e1]
    simp [merase, List.filter]
  have hrevfold : List.foldl merase ([] : List (Txid × Txid)) [B, A] = [] := by
    rfl
  have hclean : CkBtcMinterState.cleanup_tx_replacement_chain S4 C =
      { S4 with
        replacement_txid := [],
        rev_replacement_txid := [],
        submitted_transactions := [],
        stuck_transactions := [] } := by
    simp only [CkBtcMinterState.cleanup_tx_replacement_chain, hf6, hf7, hf3, hf4, hcc1, hcc2]
    simp [List.filter, merase, hA, hB, hAB]
  refine ⟨S1, S2, _, hstep1, hstep2, by rw [hfin, hclean], ?_, ?_, ?_, ?_, ?_, ?_, ?_, ?_⟩
  · rfl
  · rfl
  · rfl
  · rfl
  · -- finalized queue
    dsimp only
    rw [hf5]
    rw [foldl_push_core_drop _ _ hlen]
    rw [List.length_map]
  · dsimp only
    exact hg1
  · dsimp only
    exact hg2
  · dsimp only
    exact hg3

/-- Transaction A of the concrete C2 chain: txid 11, no requests, no inputs. -/
def c2_txA : SubmittedBtcTransaction :=
  { requests := [], txid := 11, used_utxos := [], submitted_at := 0,
    change_output := none, fee_per_vbyte := none }

/-- Transaction B of the concrete C2 chain: txid 12. -/
def c2_txB : SubmittedBtcTransaction :=
  { requests := [], txid := 12, used_utxos := [], submitted_at := 0,
    change_output := none, fee_per_vbyte := none }

/-- Transaction C of the concrete C2 chain: txid 13. -/
def c2_txC : SubmittedBtcTransaction :=
  { requests := [], txid := 13, used_utxos := [], submitted_at := 0,
    change_output := none, fee_per_vbyte := none }

/-- A state holding transaction A of the C2 chain as the only submitted
transaction. -/
def c2_state : CkBtcMinterState := { submitted_transactions := [c2_txA] }

/-- Witness for C2 on the concrete chain 11 → 12 → 13. -/
theorem finalize_rbf_chain_spec_witness :
    ∃ s₁ s₂ s₃,
      c2_state.replace_transaction 11 c2_txB = some s₁ ∧
      s₁.replace_transaction 12 c2_txC = some s₂ ∧
      s₂.finalize_transaction 13 = some s₃ ∧
      s₃.submitted_transactions = [] ∧
      s₃.stuck_transactions = [] ∧
      s₃.replacement_txid = [] ∧
      s₃.rev_replacement_txid = [] ∧
      s₃.finalized_requests =
        (c2_state.finalized_requests ++ c2_txC.requests.map (fun request =>
          ({ request := request, state := FinalizedStatus.Confirmed 13 } :
            FinalizedBtcRetrieval))).drop
          (c2_state.finalized_requests.length + c2_txC.requests.length -
            MAX_FINALIZED_REQUESTS) ∧
      s₃.outpoint_account =
        (c2_txC.used_utxos.foldl CkBtcMinterState.forget_utxo c2_state).outpoint_account ∧
      s₃.utxos_state_addresses =
        (c2_txC.used_utxos.foldl CkBtcMinterState.forget_utxo c2_state).utxos_state_addresses ∧
      s₃.finalized_utxos =
        (c2_txC.used_utxos.foldl CkBtcMinterState.forget_utxo c2_state).finalized_utxos :=
  finalize_rbf_chain_spec c2_state c2_txA c2_txB c2_txC 11 12 13 rfl rfl rfl
    (by decide) (by decide) (by decide) rfl rfl rfl rfl
    (fun r hr => by cases hr) (fun r hr => by cases hr) (by decide)

end CkBtc
